import Mathlib

/-!
Verification of the Splatpipe COLMAP cleaning engine.

The definitions below are a shallow embedding of the Python sources
`src/splatpipe/colmap/parsers_bin.py`, `src/splatpipe/colmap/parsers.py`,
`src/splatpipe/colmap/filters.py` and `src/splatpipe/colmap/ply_io.py`.
Byte streams are modeled as `List (Fin 256)`, text files as `List String`
(one entry per physical line, without the trailing newline), Python
exceptions as `Option`/`Except`, machine integers as `Nat`/`Int` with
explicit two's-complement adjustment, and exact rational arithmetic in
place of IEEE-754 doubles.  Wall-clock readings (`time.time()`) are
passed in as explicit rational arguments.
-/

namespace Splatpipe

/-- One byte of a binary COLMAP file. -/
abbrev Byte := Fin 256

/-- Little-endian value of a byte string, as read by `struct.unpack` with
a `<` format. -/
def leNat : List Byte → ℕ
  | [] => 0
  | b :: bs => b.val + 256 * leNat bs

/-- Two's-complement reinterpretation of a `w`-bit unsigned value, as done
by the signed `struct` codes `<i` and `<q`. -/
def toSigned (w : ℕ) (u : ℕ) : ℤ :=
  if u < 2 ^ (w - 1) then (u : ℤ) else (u : ℤ) - 2 ^ w

/-- Read exactly `n` bytes from the stream; models `f.read(n)` followed by
`struct.unpack`, which raises when fewer than `n` bytes remain. -/
def readN (n : ℕ) (bs : List Byte) : Option (List Byte × List Byte) :=
  if n ≤ bs.length then some (bs.take n, bs.drop n) else none

/-- Read `n` consecutive 8-byte fields (`<d` doubles).  The IEEE-754 bit
patterns are kept uninterpreted as 64-bit naturals. -/
def readDoubles : ℕ → List Byte → Option (List ℕ × List Byte)
  | 0, bs => some ([], bs)
  | n + 1, bs => do
    let (d, bs1) ← readN 8 bs
    let (rest, bs2) ← readDoubles n bs1
    some (leNat d :: rest, bs2)

/-- Camera record yielded by `parse_cameras_bin` (doubles kept as bit
patterns). -/
structure CameraRec where
  camera_id : ℕ
  model : String
  width : ℕ
  height : ℕ
  params : List ℕ
  deriving DecidableEq

/-- Lookup table `CAMERA_MODELS` from `parsers_bin.py`: model id to
(name, number of parameters). -/
def CAMERA_MODELS (id : ℤ) : Option (String × ℕ) :=
  if id = 0 then some ("SIMPLE_PINHOLE", 3)
  else if id = 1 then some ("PINHOLE", 4)
  else if id = 2 then some ("SIMPLE_RADIAL", 4)
  else if id = 3 then some ("RADIAL", 5)
  else if id = 4 then some ("OPENCV", 8)
  else if id = 5 then some ("OPENCV_FISHEYE", 8)
  else if id = 6 then some ("FULL_OPENCV", 12)
  else if id = 7 then some ("FOV", 5)
  else if id = 8 then some ("SIMPLE_RADIAL_FISHEYE", 4)
  else if id = 9 then some ("RADIAL_FISHEYE", 5)
  else if id = 10 then some ("THIN_PRISM_FISHEYE", 12)
  else none

/-- Body of the per-camera loop of `parse_cameras_bin`: camera id (`<I`),
model id (`<i`), width and height (`<Q`), then
`CAMERA_MODELS.get(model_id, (f"UNKNOWN_{model_id}", 0))` parameters. -/
def parseCameraRecord (bs : List Byte) : Option (CameraRec × List Byte) := do
  let (cid, bs1) ← readN 4 bs
  let (mid, bs2) ← readN 4 bs1
  let (w, bs3) ← readN 8 bs2
  let (h, bs4) ← readN 8 bs3
  let modelId : ℤ := toSigned 32 (leNat mid)
  let entry := (CAMERA_MODELS modelId).getD ("UNKNOWN_" ++ toString modelId, 0)
  let (ps, bs5) ← readDoubles entry.2 bs4
  some (⟨leNat cid, entry.1, leNat w, leNat h, ps⟩, bs5)

/-- Repeat `parseCameraRecord` a given number of times. -/
def parseCameraList : ℕ → List Byte → Option (List CameraRec × List Byte)
  | 0, bs => some ([], bs)
  | n + 1, bs => do
    let (c, bs1) ← parseCameraRecord bs
    let (cs, bs2) ← parseCameraList n bs1
    some (c :: cs, bs2)

/-- Parse `cameras.bin`: a `<Q` record count followed by that many camera
records (`parse_cameras_bin`). -/
def parseCamerasBin (bs : List Byte) : Option (List CameraRec) := do
  let (cnt, bs1) ← readN 8 bs
  let (cams, _) ← parseCameraList (leNat cnt) bs1
  some cams

/-- Signed model-id field of a raw camera record, bytes 4..8 (`<i`). -/
def modelIdAt (bs : List Byte) : ℤ :=
  toSigned 32 (leNat ((bs.drop 4).take 4))

/-- One 2D observation yielded by `parse_images_bin`: two doubles (bit
patterns) and a signed 64-bit point reference (`<q`). -/
structure ObsRec where
  x : ℕ
  y : ℕ
  point3d_id : ℤ
  deriving DecidableEq

/-- Body of the per-observation loop of `parse_images_bin`:
`x, y = struct.unpack("<2d", f.read(16))` then
`point3d_id = struct.unpack("<q", f.read(8))[0]`. -/
def parseObsRecord (bs : List Byte) : Option (ObsRec × List Byte) := do
  let (xy, bs1) ← readN 16 bs
  let (pid, bs2) ← readN 8 bs1
  some (⟨leNat (xy.take 8), leNat (xy.drop 8), toSigned 64 (leNat pid)⟩, bs2)

/-- Repeat `parseObsRecord` a given number of times. -/
def parseObsList : ℕ → List Byte → Option (List ObsRec × List Byte)
  | 0, bs => some ([], bs)
  | n + 1, bs => do
    let (o, bs1) ← parseObsRecord bs
    let (os, bs2) ← parseObsList n bs1
    some (o :: os, bs2)

/-- Scan a null-terminated byte string: consume until a zero byte or end
of stream, as in the name-reading loop of `parse_images_bin`. -/
def readCString : List Byte → List Byte × List Byte
  | [] => ([], [])
  | b :: bs =>
    if b.val = 0 then ([], bs)
    else
      let (s, r) := readCString bs
      (b :: s, r)

/-- Image record yielded by `parse_images_bin` (pose doubles kept as bit
patterns, name kept as its UTF-8 bytes). -/
structure ImageRec where
  image_id : ℕ
  pose : List ℕ
  camera_id : ℕ
  name : List Byte
  points2d : List ObsRec
  deriving DecidableEq

/-- Body of the per-image loop of `parse_images_bin`: image id (`<I`),
four quaternion and three translation doubles, camera id (`<I`), a
null-terminated name, a `<Q` observation count and that many
observations. -/
def parseImageRecord (bs : List Byte) : Option (ImageRec × List Byte) := do
  let (iid, bs1) ← readN 4 bs
  let (q, bs2) ← readDoubles 4 bs1
  let (t, bs3) ← readDoubles 3 bs2
  let (cid, bs4) ← readN 4 bs3
  let (nm, bs5) := readCString bs4
  let (cnt, bs6) ← readN 8 bs5
  let (obs, bs7) ← parseObsList (leNat cnt) bs6
  some (⟨leNat iid, q ++ t, leNat cid, nm, obs⟩, bs7)

/-- Repeat `parseImageRecord` a given number of times. -/
def parseImageList : ℕ → List Byte → Option (List ImageRec × List Byte)
  | 0, bs => some ([], bs)
  | n + 1, bs => do
    let (i, bs1) ← parseImageRecord bs
    let (is, bs2) ← parseImageList n bs1
    some (i :: is, bs2)

/-- Parse `images.bin`: a `<Q` record count followed by that many image
records (`parse_images_bin`). -/
def parseImagesBin (bs : List Byte) : Option (List ImageRec) := do
  let (cnt, bs1) ← readN 8 bs
  let (imgs, _) ← parseImageList (leNat cnt) bs1
  some imgs

/-- One track entry of `parse_points3d_bin`: image id and observation
index, both `<I`. -/
structure TrackRec where
  image_id : ℕ
  point2d_idx : ℕ
  deriving DecidableEq

/-- Repeat the track-entry read of `parse_points3d_bin`. -/
def parseTrackList : ℕ → List Byte → Option (List TrackRec × List Byte)
  | 0, bs => some ([], bs)
  | n + 1, bs => do
    let (a, bs1) ← readN 4 bs
    let (b, bs2) ← readN 4 bs1
    let (ts, bs3) ← parseTrackList n bs2
    some (⟨leNat a, leNat b⟩ :: ts, bs3)

/-- Point record yielded by `parse_points3d_bin` (doubles kept as bit
patterns). -/
structure Point3DRec where
  point3d_id : ℕ
  x : ℕ
  y : ℕ
  z : ℕ
  r : ℕ
  g : ℕ
  b : ℕ
  error : ℕ
  track : List TrackRec
  deriving DecidableEq

/-- Body of the per-point loop of `parse_points3d_bin`: an unsigned
64-bit point id (`<Q`), three position doubles, three color bytes
(`<3B`), one error double, a `<Q` track length and that many track
entries. -/
def parsePoint3DRecord (bs : List Byte) : Option (Point3DRec × List Byte) := do
  let (pid, bs1) ← readN 8 bs
  let (xyz, bs2) ← readDoubles 3 bs1
  let (rgb, bs3) ← readN 3 bs2
  let (err, bs4) ← readN 8 bs3
  let (tl, bs5) ← readN 8 bs4
  let (tr, bs6) ← parseTrackList (leNat tl) bs5
  some (⟨leNat pid, xyz.getD 0 0, xyz.getD 1 0, xyz.getD 2 0,
         (rgb.getD 0 0).val, (rgb.getD 1 0).val, (rgb.getD 2 0).val,
         leNat err, tr⟩, bs6)

/-- Repeat `parsePoint3DRecord` a given number of times. -/
def parsePoint3DList : ℕ → List Byte → Option (List Point3DRec × List Byte)
  | 0, bs => some ([], bs)
  | n + 1, bs => do
    let (p, bs1) ← parsePoint3DRecord bs
    let (ps, bs2) ← parsePoint3DList n bs1
    some (p :: ps, bs2)

/-- Parse `points3D.bin`: a `<Q` record count followed by that many point
records (`parse_points3d_bin`). -/
def parsePoints3DBin (bs : List Byte) : Option (List Point3DRec) := do
  let (cnt, bs1) ← readN 8 bs
  let (pts, _) ← parsePoint3DList (leNat cnt) bs1
  some pts

/-- Little-endian values are bounded by `256 ^ length`. -/
theorem leNat_lt (bs : List Byte) : leNat bs < 256 ^ bs.length := by
  induction bs with
  | nil => simp [leNat]
  | cons b bs ih =>
    have hb : b.val < 256 := b.isLt
    simp only [leNat, List.length_cons, pow_succ]
    nlinarith

/-- Bound on little-endian values of byte strings of bounded length. -/
theorem leNat_lt_of_length_le (bs : List Byte) (n : ℕ) (h : bs.length ≤ n) :
    leNat bs < 256 ^ n :=
  lt_of_lt_of_le (leNat_lt bs) (Nat.pow_le_pow_right (by norm_num) h)

/-- Characterization of a successful bounded read. -/
theorem readN_eq_some {n : ℕ} {bs : List Byte} (h : n ≤ bs.length) :
    readN n bs = some (bs.take n, bs.drop n) := by
  simp [readN, h]

/-- Inversion of a successful bounded read. -/
theorem readN_some {n : ℕ} {bs a r : List Byte} (h : readN n bs = some (a, r)) :
    n ≤ bs.length ∧ a = bs.take n ∧ r = bs.drop n := by
  unfold readN at h
  split at h
  · simp only [Option.some.injEq, Prod.mk.injEq] at h
    exact ⟨by assumption, h.1.symm, h.2.symm⟩
  · simp at h

/-- Negativity of the signed 64-bit decoding is exactly the top bit. -/
theorem toSigned_neg_iff (u : ℕ) (hu : u < 2 ^ 64) :
    toSigned 64 u < 0 ↔ 2 ^ 63 ≤ u := by
  unfold toSigned
  split <;> constructor <;> intro h <;> omega

/-- Range of the signed 64-bit decoding. -/
theorem toSigned64_bounds (u : ℕ) (hu : u < 2 ^ 64) :
    -(2 ^ 63) ≤ toSigned 64 u ∧ toSigned 64 u < 2 ^ 63 := by
  unfold toSigned
  split <;> constructor <;> omega

/-- Wire layout of a parsed 2D observation: the point reference is the
signed little-endian 64-bit field at bytes 16..24. -/
theorem parseObsRecord_spec (bs : List Byte) (o : ObsRec) (rest : List Byte)
    (h : parseObsRecord bs = some (o, rest)) :
    o.point3d_id = toSigned 64 (leNat ((bs.drop 16).take 8)) ∧ rest = bs.drop 24 := by
  unfold parseObsRecord at h
  cases h16 : readN 16 bs with
  | none => rw [h16] at h; simp at h
  | some p =>
    obtain ⟨xy, bs1⟩ := p
    rw [h16] at h
    simp only [Option.bind_eq_bind, Option.some_bind] at h
    cases h8 : readN 8 bs1 with
    | none => rw [h8] at h; simp at h
    | some q =>
      obtain ⟨pid, bs2⟩ := q
      rw [h8] at h
      simp only [Option.some_bind, Option.some.injEq, Prod.mk.injEq] at h
      obtain ⟨_, hxy, hbs1⟩ := readN_some h16
      obtain ⟨_, hpid, hbs2⟩ := readN_some h8
      subst hbs1 hxy hpid hbs2
      refine ⟨?_, ?_⟩
      · rw [← h.1]
      · rw [← h.2, List.drop_drop]

/-- Wire layout of a parsed 3D point: the point id is the unsigned
little-endian 64-bit field at bytes 0..8. -/
theorem parsePoint3DRecord_spec (bs : List Byte) (p : Point3DRec) (rest : List Byte)
    (h : parsePoint3DRecord bs = some (p, rest)) :
    p.point3d_id = leNat (bs.take 8) ∧ p.point3d_id < 2 ^ 64 := by
  unfold parsePoint3DRecord at h
  simp only [Option.bind_eq_bind, Option.bind_eq_some] at h
  obtain ⟨⟨pid, bs1⟩, h1, h⟩ := h
  obtain ⟨⟨xyz, bs2⟩, h2, h⟩ := h
  obtain ⟨⟨rgb, bs3⟩, h3, h⟩ := h
  obtain ⟨⟨err, bs4⟩, h4, h⟩ := h
  obtain ⟨⟨tl, bs5⟩, h5, h⟩ := h
  obtain ⟨⟨tr, bs6⟩, h6, h⟩ := h
  simp only [Option.some.injEq, Prod.mk.injEq] at h
  obtain ⟨hle, hpid, -⟩ := readN_some h1
  have hid : p.point3d_id = leNat pid := by rw [← h.1]
  subst hpid
  refine ⟨hid, ?_⟩
  rw [hid]
  have hb := leNat_lt (bs.take 8)
  have hlen : (bs.take 8).length = 8 := by simp [hle]
  rw [hlen] at hb
  calc leNat (bs.take 8) < 256 ^ 8 := hb
    _ = 2 ^ 64 := by norm_num

/-- C3: in the binary codec a standalone 3D-point id is decoded as an
unsigned 64-bit little-endian integer (a `ℕ` below `2 ^ 64`), while an
image's per-observation point reference is decoded as a signed 64-bit
little-endian integer (a `ℤ` in `[-2 ^ 63, 2 ^ 63)`); the sentinel byte
pattern (eight `0xFF` bytes) decodes to the negative value `-1` under the
signed type and to `2 ^ 64 - 1` under the unsigned one, and the two
decoders differ exactly on the values with the top bit set. -/
theorem binary_point_id_wire_types :
    (∀ bs o rest, parseObsRecord bs = some (o, rest) →
        o.point3d_id = toSigned 64 (leNat ((bs.drop 16).take 8)) ∧
        -(2 ^ 63) ≤ o.point3d_id ∧ o.point3d_id < 2 ^ 63 ∧ rest = bs.drop 24) ∧
    (∀ bs p rest, parsePoint3DRecord bs = some (p, rest) →
        p.point3d_id = leNat (bs.take 8) ∧ p.point3d_id < 2 ^ 64) ∧
    (toSigned 64 (leNat (List.replicate 8 (255 : Byte))) = -1 ∧
      leNat (List.replicate 8 (255 : Byte)) = 2 ^ 64 - 1) ∧
    (∀ u : ℕ, u < 2 ^ 64 →
        ((toSigned 64 u < 0 ↔ 2 ^ 63 ≤ u) ∧
          toSigned 64 u = (u : ℤ) - (if 2 ^ 63 ≤ u then 2 ^ 64 else 0))) := by
  refine ⟨?_, ?_, ⟨by decide, by decide⟩, ?_⟩
  · intro bs o rest h
    obtain ⟨hpid, hrest⟩ := parseObsRecord_spec bs o rest h
    have hu : leNat ((bs.drop 16).take 8) < 2 ^ 64 := by
      have := leNat_lt_of_length_le ((bs.drop 16).take 8) 8 (by simp)
      calc leNat ((bs.drop 16).take 8) < 256 ^ 8 := this
        _ = 2 ^ 64 := by norm_num
    obtain ⟨hlo, hhi⟩ := toSigned64_bounds _ hu
    exact ⟨hpid, by rw [hpid]; exact hlo, by rw [hpid]; exact hhi, hrest⟩
  · exact parsePoint3DRecord_spec
  · intro u hu
    refine ⟨toSigned_neg_iff u hu, ?_⟩
    unfold toSigned
    split <;> split <;> omega

/-- Concrete 24-byte observation record: two zero doubles followed by the
all-ones sentinel reference. -/
def exObsBytes : List Byte := List.replicate 16 0 ++ List.replicate 8 255

/-- Concrete 51-byte point record: id 9, zero coordinates, color
(1, 2, 3), zero error, empty track. -/
def exPointBytes : List Byte :=
  [9, 0, 0, 0, 0, 0, 0, 0] ++ List.replicate 24 0 ++ [1, 2, 3] ++
    List.replicate 8 0 ++ List.replicate 8 0

/-- C3 witness: the wire-type theorem evaluated on concrete observation
and point records, including the sentinel. -/
theorem binary_point_id_wire_types_witness :
    (parseObsRecord exObsBytes = some (⟨0, 0, -1⟩, []) ∧
      ((⟨0, 0, -1⟩ : ObsRec).point3d_id =
          toSigned 64 (leNat ((exObsBytes.drop 16).take 8)) ∧
        -(2 ^ 63) ≤ (⟨0, 0, -1⟩ : ObsRec).point3d_id ∧
        (⟨0, 0, -1⟩ : ObsRec).point3d_id < 2 ^ 63 ∧
        ([] : List Byte) = exObsBytes.drop 24)) ∧
    (parsePoint3DRecord exPointBytes = some (⟨9, 0, 0, 0, 1, 2, 3, 0, []⟩, []) ∧
      ((⟨9, 0, 0, 0, 1, 2, 3, 0, []⟩ : Point3DRec).point3d_id =
          leNat (exPointBytes.take 8) ∧
        (⟨9, 0, 0, 0, 1, 2, 3, 0, []⟩ : Point3DRec).point3d_id < 2 ^ 64)) ∧
    ((2 ^ 64 - 1 : ℕ) < 2 ^ 64 ∧
      ((toSigned 64 (2 ^ 64 - 1) < 0 ↔ 2 ^ 63 ≤ (2 ^ 64 - 1 : ℕ)) ∧
        toSigned 64 (2 ^ 64 - 1) =
          ((2 ^ 64 - 1 : ℕ) : ℤ) -
            (if 2 ^ 63 ≤ (2 ^ 64 - 1 : ℕ) then 2 ^ 64 else 0))) :=
  ⟨⟨by decide, binary_point_id_wire_types.1 exObsBytes ⟨0, 0, -1⟩ [] (by decide)⟩,
    ⟨by decide,
      binary_point_id_wire_types.2.1 exPointBytes ⟨9, 0, 0, 0, 1, 2, 3, 0, []⟩ []
        (by decide)⟩,
    by decide, binary_point_id_wire_types.2.2.2 (2 ^ 64 - 1) (by decide)⟩

/-- C2 (amended): a camera record whose signed model-id field is not in
`CAMERA_MODELS` parses successfully — no error is raised — yielding model
name `UNKNOWN_<id>` and an empty parameter vector. -/
theorem parseCameraRecord_unknown_model (bs : List Byte) (hlen : 24 ≤ bs.length)
    (hmodel : CAMERA_MODELS (modelIdAt bs) = none) :
    parseCameraRecord bs = some (⟨leNat (bs.take 4),
      "UNKNOWN_" ++ toString (modelIdAt bs),
      leNat ((bs.drop 8).take 8), leNat ((bs.drop 16).take 8), []⟩, bs.drop 24) := by
  have h1 : readN 4 bs = some (bs.take 4, bs.drop 4) := readN_eq_some (by omega)
  have h2 : readN 4 (bs.drop 4) = some ((bs.drop 4).take 4, bs.drop 8) := by
    rw [readN_eq_some (by simp; omega), List.drop_drop]
  have h3 : readN 8 (bs.drop 8) = some ((bs.drop 8).take 8, bs.drop 16) := by
    rw [readN_eq_some (by simp; omega), List.drop_drop]
  have h4 : readN 8 (bs.drop 16) = some ((bs.drop 16).take 8, bs.drop 24) := by
    rw [readN_eq_some (by simp; omega), List.drop_drop]
  unfold parseCameraRecord
  rw [h1]
  simp only [Option.bind_eq_bind, Option.some_bind]
  rw [h2]
  simp only [Option.some_bind]
  rw [h3]
  simp only [Option.some_bind]
  rw [h4]
  simp only [Option.some_bind]
  rw [show toSigned 32 (leNat ((bs.drop 4).take 4)) = modelIdAt bs from rfl, hmodel]
  simp [readDoubles]

/-- Concrete 24-byte camera record with the unrecognized model id 11:
camera id 7, width 640, height 480. -/
def exCameraRecBytes : List Byte :=
  [7, 0, 0, 0, 11, 0, 0, 0, 128, 2, 0, 0, 0, 0, 0, 0, 224, 1, 0, 0, 0, 0, 0, 0]

/-- C2 witness: the amended behavior evaluated on the concrete record
with model id 11. -/
theorem parseCameraRecord_unknown_model_witness :
    (24 ≤ exCameraRecBytes.length ∧ CAMERA_MODELS (modelIdAt exCameraRecBytes) = none) ∧
    parseCameraRecord exCameraRecBytes = some (⟨leNat (exCameraRecBytes.take 4),
      "UNKNOWN_" ++ toString (modelIdAt exCameraRecBytes),
      leNat ((exCameraRecBytes.drop 8).take 8),
      leNat ((exCameraRecBytes.drop 16).take 8), []⟩, exCameraRecBytes.drop 24) :=
  ⟨⟨by decide, by decide⟩,
    parseCameraRecord_unknown_model exCameraRecBytes (by decide) (by decide)⟩

/-- Concrete `cameras.bin` byte stream: record count 1, then the 24-byte
record of `exCameraRecBytes` (camera id 7, model id 11, 640 by 480). -/
def exCamerasBinBytes : List Byte :=
  [1, 0, 0, 0, 0, 0, 0, 0] ++ exCameraRecBytes

/-- C2 (counterexample): a binary cameras table containing a camera whose
model tag 11 is not in `CAMERA_MODELS` parses without any error — the
camera is yielded with the zero-parameter default `UNKNOWN_11` — refuting
the claim that such a table is a hard parse error. -/
theorem parseCamerasBin_unknown_model_succeeds :
    CAMERA_MODELS 11 = none ∧
    parseCamerasBin exCamerasBinBytes = some [⟨7, "UNKNOWN_11", 640, 480, []⟩] :=
  ⟨by decide, by decide⟩

/-! ## Text layer

COLMAP text files are modeled as `List String`, one entry per physical
line without its trailing newline.  Python's `str.split()` (no separator:
maximal runs of non-whitespace) is modeled on the character list of the
string, and `" ".join` as interspersing single spaces. -/

/-- Dropping a prefix cannot lengthen a list. -/
theorem length_dropWhile_le {α : Type} (p : α → Bool) (l : List α) :
    (l.dropWhile p).length ≤ l.length := by
  induction l with
  | nil => simp
  | cons a l ih =>
    rw [List.dropWhile_cons]
    split
    · exact le_trans ih (by simp)
    · simp

/-- Accumulator pass of `words`: `cur` holds the reversed current word. -/
def wordsAux : List Char → List Char → List (List Char)
  | [], cur => if cur.isEmpty then [] else [cur.reverse]
  | c :: cs, cur =>
    if c.isWhitespace then
      if cur.isEmpty then wordsAux cs [] else cur.reverse :: wordsAux cs []
    else wordsAux cs (c :: cur)

/-- Maximal non-whitespace runs of a character list, as produced by
Python `str.split()` with no separator. -/
def words (cs : List Char) : List (List Char) :=
  wordsAux cs []

/-- Mid-word state of the accumulator pass, expressed with
`takeWhile`/`dropWhile`. -/
theorem wordsAux_spec (cs : List Char) : ∀ cur : List Char, ¬cur.isEmpty = true →
    wordsAux cs cur = (cur.reverse ++ cs.takeWhile (fun d => !d.isWhitespace)) ::
      wordsAux (cs.dropWhile (fun d => !d.isWhitespace)) [] := by
  induction cs with
  | nil =>
    intro cur hcur
    simp [wordsAux, hcur]
  | cons c cs ih =>
    intro cur hcur
    by_cases hws : c.isWhitespace
    · rw [wordsAux, if_pos hws, if_neg hcur]
      rw [List.takeWhile_cons, List.dropWhile_cons]
      rw [if_neg (by simp [hws]), if_neg (by simp [hws])]
      rw [List.append_nil, wordsAux, if_pos hws]
      simp
    · rw [wordsAux, if_neg hws]
      rw [ih (c :: cur) (by simp)]
      rw [List.takeWhile_cons, List.dropWhile_cons]
      rw [if_pos (by simp [hws]), if_pos (by simp [hws])]
      simp

/-- Unfolding of `words` on a cons cell, matching the structure of
`str.split()`. -/
theorem words_cons (c : Char) (cs : List Char) :
    words (c :: cs) = if c.isWhitespace then words cs
      else (c :: cs.takeWhile (fun d => !d.isWhitespace)) ::
        words (cs.dropWhile (fun d => !d.isWhitespace)) := by
  unfold words
  rw [wordsAux]
  by_cases hws : c.isWhitespace
  · rw [if_pos hws, if_pos hws]
    simp
  · rw [if_neg hws, if_neg hws, wordsAux_spec _ [c] (by simp)]
    simp

/-- Tokens produced by the accumulator pass are nonempty and
whitespace-free, given a whitespace-free accumulator. -/
theorem wordsAux_mem (cs : List Char) : ∀ cur w : List Char,
    (∀ c ∈ cur, ¬c.isWhitespace = true) → w ∈ wordsAux cs cur →
    w ≠ [] ∧ ∀ c ∈ w, ¬c.isWhitespace = true := by
  induction cs with
  | nil =>
    intro cur w hcur hw
    rw [wordsAux] at hw
    split at hw
    · simp at hw
    · rename_i hne
      rw [List.mem_singleton] at hw
      subst hw
      refine ⟨by simpa using hne, ?_⟩
      intro c hc
      exact hcur c (by simpa using hc)
  | cons c cs ih =>
    intro cur w hcur hw
    rw [wordsAux] at hw
    by_cases hws : c.isWhitespace
    · rw [if_pos hws] at hw
      split at hw
      · exact ih [] w (by simp) hw
      · rename_i hne
        rcases List.mem_cons.mp hw with h | h
        · subst h
          refine ⟨by simpa using hne, ?_⟩
          intro d hd
          exact hcur d (by simpa using hd)
        · exact ih [] w (by simp) h
    · rw [if_neg hws] at hw
      refine ih (c :: cur) w ?_ hw
      intro d hd
      rcases List.mem_cons.mp hd with h | h
      · subst h; simpa using hws
      · exact hcur d h

/-- Tokens produced by `words` are nonempty and whitespace-free. -/
theorem words_mem (cs : List Char) (w : List Char) (hw : w ∈ words cs) :
    w ≠ [] ∧ ∀ c ∈ w, ¬c.isWhitespace = true :=
  wordsAux_mem cs [] w (by simp) hw

/-- Whitespace tokenization of a line: `line.split()`. -/
def splitWs (s : String) : List String :=
  (words s.data).map (fun w => ⟨w⟩)

/-- Space-joined token list: `" ".join(parts)`. -/
def joinToks (ts : List String) : String :=
  ⟨List.intercalate [' '] (ts.map String.data)⟩

/-- Model of Python `line.startswith("#")` on the character list. -/
def startsWithHash (s : String) : Bool :=
  match s.data with
  | c :: _ => c = '#'
  | [] => false

theorem takeWhile_append_of_all {α : Type} (p : α → Bool) (l1 l2 : List α)
    (h : ∀ a ∈ l1, p a = true) : (l1 ++ l2).takeWhile p = l1 ++ l2.takeWhile p := by
  induction l1 with
  | nil => simp
  | cons a l1 ih =>
    simp only [List.cons_append, List.takeWhile_cons]
    rw [if_pos (h a (by simp)), ih (fun b hb => h b (by simp [hb]))]

theorem dropWhile_append_of_all {α : Type} (p : α → Bool) (l1 l2 : List α)
    (h : ∀ a ∈ l1, p a = true) : (l1 ++ l2).dropWhile p = l2.dropWhile p := by
  induction l1 with
  | nil => simp
  | cons a l1 ih =>
    simp only [List.cons_append, List.dropWhile_cons]
    rw [if_pos (h a (by simp)), ih (fun b hb => h b (by simp [hb]))]

theorem words_single (w : List Char) (hne : w ≠ [])
    (hws : ∀ c ∈ w, ¬c.isWhitespace = true) : words w = [w] := by
  obtain ⟨c, cs, rfl⟩ := List.exists_cons_of_ne_nil hne
  rw [words_cons, if_neg (hws c (by simp))]
  rw [List.takeWhile_eq_self_iff.mpr, List.dropWhile_eq_nil_iff.mpr]
  · simp [words, wordsAux]
  · intro a ha; simpa using hws a (by simp [ha])
  · intro a ha; simpa using hws a (by simp [ha])

theorem words_intercalate (ws : List (List Char))
    (h : ∀ w ∈ ws, w ≠ [] ∧ ∀ c ∈ w, ¬c.isWhitespace = true) :
    words (List.intercalate [' '] ws) = ws := by
  induction ws with
  | nil => simp [List.intercalate, words, wordsAux]
  | cons w ws ih =>
    cases ws with
    | nil =>
      have hw := h w (by simp)
      simp only [List.intercalate, List.intersperse_singleton]
      rw [show ([w] : List (List Char)).flatten = w by simp]
      exact words_single w hw.1 hw.2
    | cons w2 ws2 =>
      have hw := h w (by simp)
      obtain ⟨c, cs, rfl⟩ := List.exists_cons_of_ne_nil hw.1
      have hcs : ∀ a ∈ cs, (!a.isWhitespace) = true := by
        intro a ha
        simpa using hw.2 a (by simp [ha])
      have hstep : List.intercalate [' '] ((c :: cs) :: w2 :: ws2) =
          (c :: cs) ++ ' ' :: List.intercalate [' '] (w2 :: ws2) := by
        simp [List.intercalate, List.intersperse]
      rw [hstep, List.cons_append, words_cons,
        if_neg (by simpa using hw.2 c (by simp))]
      rw [takeWhile_append_of_all _ _ _ hcs, dropWhile_append_of_all _ _ _ hcs]
      rw [List.takeWhile_cons, List.dropWhile_cons]
      rw [if_neg (by decide), if_neg (by decide)]
      rw [List.append_nil, words_cons, if_pos (by decide)]
      rw [ih (fun x hx => h x (by simp [hx]))]


/-- Nonempty whitespace-free token predicate, the invariant satisfied by
everything `splitWs` produces and by the sentinel token. -/
def GoodTok (t : String) : Prop :=
  t ≠ "" ∧ ∀ c ∈ t.data, ¬c.isWhitespace = true

/-- Tokens of a line are good tokens. -/
theorem goodTok_of_words (s : String) (t : String) (ht : t ∈ splitWs s) :
    GoodTok t := by
  unfold splitWs at ht
  obtain ⟨w, hw, rfl⟩ := List.mem_map.mp ht
  obtain ⟨h1, h2⟩ := words_mem s.data w hw
  refine ⟨?_, h2⟩
  intro hc
  apply h1
  have : (String.mk w).data = ([] : List Char) := by rw [hc]
  exact this

/-- Round trip: splitting a space-joined list of good tokens returns the
token list. -/
theorem splitWs_joinToks (ts : List String) (h : ∀ t ∈ ts, GoodTok t) :
    splitWs (joinToks ts) = ts := by
  unfold splitWs joinToks
  have hd : (String.mk (List.intercalate [' '] (ts.map String.data))).data =
      List.intercalate [' '] (ts.map String.data) := rfl
  rw [hd, words_intercalate]
  · rw [List.map_map]
    conv_rhs => rw [← List.map_id ts]
    apply List.map_congr_left
    intro t ht
    rfl
  · intro w hw
    obtain ⟨t, ht, rfl⟩ := List.mem_map.mp hw
    obtain ⟨h1, h2⟩ := h t ht
    refine ⟨fun hc => h1 ?_, h2⟩
    cases t
    simp only [String.data] at hc
    rw [hc]

/-- Decimal digit value of a character, via its code point. -/
def digitVal (c : Char) : Option ℕ :=
  if 48 ≤ c.toNat ∧ c.toNat ≤ 57 then some (c.toNat - 48) else none

/-- Left-to-right decimal accumulation over a digit run. -/
def parseDigitsAux : List Char → ℕ → Option ℕ
  | [], acc => some acc
  | c :: cs, acc => do
    let d ← digitVal c
    parseDigitsAux cs (acc * 10 + d)

/-- Python `int(token)` on a whitespace-free token: an optional sign
followed by a nonempty digit run.  (Underscore separators and surrounding
whitespace, which Python also accepts, are not modeled.) -/
def pyInt (s : String) : Option Int :=
  match s.data with
  | '-' :: cs => if cs.isEmpty then none else (parseDigitsAux cs 0).map (fun n => -(n : Int))
  | '+' :: cs => if cs.isEmpty then none else (parseDigitsAux cs 0).map (fun n => (n : Int))
  | cs => if cs.isEmpty then none else (parseDigitsAux cs 0).map (fun n => (n : Int))

/-- Statistics dict returned by `clean_points2d_refs`. -/
structure CleanStats where
  cameras : ℕ
  total_refs : ℕ
  kept_refs : ℕ
  cleaned_refs : ℕ
  duration_s : ℚ
  deriving DecidableEq

/-- Result of `clean_points2d_refs`: the output lines exactly as written,
the (input, output) pair of every line written in the observation slot,
and the returned statistics. -/
structure CleanResult where
  out : List String
  obsPairs : List (String × String)
  stats : CleanStats
  deriving DecidableEq

/-- Inner loop of `clean_points2d_refs` over the whitespace tokens of a
well-formed observation line: for each `(x, y, pid)` triplet the
reference token is kept unchanged when `pid == -1` (counted cleaned) or
`pid in kept_point_ids` (counted kept), and rewritten to `"-1"`
otherwise (counted cleaned).  A failing `int()` propagates as `none`. -/
def cleanTriplets (kept : List Int) : List String → Option (List String × ℕ × ℕ)
  | [] => some ([], 0, 0)
  | x :: y :: p :: rest => do
    let pid ← pyInt p
    let (ts, k, c) ← cleanTriplets kept rest
    if pid = -1 then some (x :: y :: p :: ts, k, c + 1)
    else if kept.contains pid then some (x :: y :: p :: ts, k + 1, c)
    else some (x :: y :: "-1" :: ts, k, c + 1)
  | _ => none

/-- Handling of one observation-slot line by `clean_points2d_refs`:
blank lines become an empty line, lines whose token count is not a
multiple of three are written back unchanged, and well-formed lines are
rewritten triplet-wise.  Returns the written line and the
(total, kept, cleaned) reference-count contributions. -/
def cleanObsLine (kept : List Int) (pts : String) : Option (String × ℕ × ℕ × ℕ) :=
  let parts := splitWs pts
  if parts.isEmpty then some ("", 0, 0, 0)
  else if parts.length % 3 ≠ 0 then some (pts, 0, 0, 0)
  else do
    let (ts, k, c) ← cleanTriplets kept parts
    some (joinToks ts, parts.length / 3, k, c)

/-- Main loop of `clean_points2d_refs`: comment lines are copied; any
other line is written as a pose line and the following line, when
present, is processed as its observation line; at end of input an empty
line is written and the loop stops. -/
def cleanLoop (kept : List Int) :
    List String → Option (List String × List (String × String) × ℕ × ℕ × ℕ × ℕ)
  | [] => some ([], [], 0, 0, 0, 0)
  | [l] =>
    if startsWithHash l then some ([l], [], 0, 0, 0, 0)
    else some ([l, ""], [], 1, 0, 0, 0)
  | l :: pts :: rest2 =>
    if startsWithHash l then do
      let (out, prs, cams, t, k, c) ← cleanLoop kept (pts :: rest2)
      some (l :: out, prs, cams, t, k, c)
    else do
      let (o, n, k0, c0) ← cleanObsLine kept pts
      let (out, prs, cams, t, k, c) ← cleanLoop kept rest2
      some (l :: o :: out, (pts, o) :: prs, cams + 1, t + n, k0 + k, c0 + c)

/-- Shallow embedding of `clean_points2d_refs` from `filters.py`:
`kept` models the `kept_point_ids` set, `t0` and `t1` the two
`time.time()` readings, `lines` the input file.  Returns `none` when the
Python code would raise. -/
def cleanPoints2dRefs (kept : List Int) (t0 t1 : ℚ) (lines : List String) :
    Option CleanResult :=
  match cleanLoop kept lines with
  | none => none
  | some (out, prs, cams, t, k, c) => some ⟨out, prs, ⟨cams, t, k, c, t1 - t0⟩⟩

/-- Reference tokens (every third token) of a token list. -/
def pidSlots : List String → List String
  | _ :: _ :: p :: rest => p :: pidSlots rest
  | _ => []

/-- Observation references of a token list, as extracted by the
repository's own text reader `parse_images_txt`: a line yields references
only when it has at least three tokens and a multiple of three of them. -/
def refsOfTokens (ts : List String) : List Int :=
  if 3 ≤ ts.length ∧ ts.length % 3 = 0 then (pidSlots ts).filterMap pyInt
  else []

/-- Observation references of a physical line. -/
def refsOfLine (s : String) : List Int :=
  refsOfTokens (splitWs s)


/-- The sentinel token is a good token. -/
theorem goodTok_neg_one : GoodTok "-1" := by
  constructor
  · decide
  · intro c hc
    fin_cases hc <;> decide

/-- The sentinel token parses to `-1`. -/
theorem pyInt_neg_one : pyInt "-1" = some (-1) := by decide

/-- Full characterization of the triplet loop of `clean_points2d_refs`:
on success the token count is a multiple of three and preserved, each
triplet is counted exactly once, the output references are the cleaning
map of the input references, the counts classify references by the
kept/cleaned predicates, and good tokens are preserved. -/
theorem cleanTriplets_spec (kept : List Int) (ts : List String) :
    ∀ out k c, cleanTriplets kept ts = some (out, k, c) →
    ts.length % 3 = 0 ∧ out.length = ts.length ∧ k + c = ts.length / 3 ∧
    (pidSlots out).filterMap pyInt =
      ((pidSlots ts).filterMap pyInt).map
        (fun p => if p ≠ -1 ∧ p ∈ kept then p else -1) ∧
    k = ((pidSlots ts).filterMap pyInt).countP
        (fun p => decide (p ≠ -1 ∧ p ∈ kept)) ∧
    c = ((pidSlots ts).filterMap pyInt).countP
        (fun p => decide (p = -1 ∨ p ∉ kept)) ∧
    ((∀ t ∈ ts, GoodTok t) → ∀ t ∈ out, GoodTok t) := by
  induction ts using cleanTriplets.induct kept with
  | case1 =>
    intro out k c h
    simp only [cleanTriplets, Option.some.injEq, Prod.mk.injEq] at h
    obtain ⟨rfl, rfl, rfl⟩ := h
    simp [pidSlots]
  | case2 x y p rest ih =>
    intro out k c h
    rw [cleanTriplets] at h
    simp only [Option.bind_eq_bind, Option.bind_eq_some] at h
    obtain ⟨pid, hpid, h⟩ := h
    obtain ⟨⟨ts0, k0, c0⟩, hrec, h⟩ := h
    obtain ⟨hmod, hlen, hsum, hmap, hk, hc, hgood⟩ := ih ts0 k0 c0 hrec
    have hps : pidSlots (x :: y :: p :: rest) = p :: pidSlots rest := rfl
    have hgood3 : (∀ t ∈ x :: y :: p :: rest, GoodTok t) →
        ∀ (glue : String) (ts0g : List String), (∀ t ∈ ts0g, GoodTok t) → GoodTok glue →
        ∀ t ∈ x :: y :: glue :: ts0g, GoodTok t := by
      intro hts glue ts0g hts0 hglue t ht
      rcases List.mem_cons.mp ht with he | ht
      · rw [he]; exact hts _ (by simp)
      rcases List.mem_cons.mp ht with he | ht
      · rw [he]; exact hts _ (by simp)
      rcases List.mem_cons.mp ht with he | ht
      · rw [he]; exact hglue
      · exact hts0 t ht
    split at h
    · rename_i heq
      simp only [Option.some.injEq, Prod.mk.injEq] at h
      obtain ⟨rfl, rfl, rfl⟩ := h
      subst heq
      refine ⟨by simp; omega, by simp [hlen], by simp; omega, ?_, ?_, ?_, ?_⟩
      · rw [show pidSlots (x :: y :: p :: ts0) = p :: pidSlots ts0 from rfl, hps]
        simp only [List.filterMap_cons, hpid, hmap, List.map_cons]
        rw [if_neg (by simp)]
      · rw [hps]
        simp only [List.filterMap_cons, hpid, List.countP_cons, hk]
        simp
      · rw [hps]
        simp only [List.filterMap_cons, hpid, List.countP_cons, hc]
        simp
      · intro hts
        exact hgood3 hts p ts0 (hgood (fun u hu => hts u (by simp [hu])))
          (hts p (by simp))
    · rename_i hne
      split at h
      · rename_i hin
        replace hin : pid ∈ kept := List.mem_of_elem_eq_true hin
        simp only [Option.some.injEq, Prod.mk.injEq] at h
        obtain ⟨rfl, rfl, rfl⟩ := h
        refine ⟨by simp; omega, by simp [hlen], by simp; omega, ?_, ?_, ?_, ?_⟩
        · rw [show pidSlots (x :: y :: p :: ts0) = p :: pidSlots ts0 from rfl, hps]
          simp only [List.filterMap_cons, hpid, hmap, List.map_cons]
          rw [if_pos ⟨hne, hin⟩]
        · rw [hps]
          simp only [List.filterMap_cons, hpid, List.countP_cons, hk]
          rw [decide_eq_true (show pid ≠ -1 ∧ pid ∈ kept from ⟨hne, hin⟩)]
          simp
        · rw [hps]
          simp only [List.filterMap_cons, hpid, List.countP_cons, hc]
          rw [decide_eq_false (show ¬(pid = -1 ∨ pid ∉ kept) from by tauto)]
          simp
        · intro hts
          exact hgood3 hts p ts0 (hgood (fun u hu => hts u (by simp [hu])))
            (hts p (by simp))
      · rename_i hnin
        have hnin2 : pid ∉ kept := by
          intro hmem
          exact hnin (List.elem_eq_true_of_mem hmem)
        simp only [Option.some.injEq, Prod.mk.injEq] at h
        obtain ⟨rfl, rfl, rfl⟩ := h
        refine ⟨by simp; omega, by simp [hlen], by simp; omega, ?_, ?_, ?_, ?_⟩
        · rw [show pidSlots (x :: y :: "-1" :: ts0) = "-1" :: pidSlots ts0 from rfl, hps]
          simp only [List.filterMap_cons, hpid, pyInt_neg_one, hmap, List.map_cons]
          rw [if_neg (fun hcon => hnin2 hcon.2)]
        · rw [hps]
          simp only [List.filterMap_cons, hpid, List.countP_cons, hk]
          rw [decide_eq_false (show ¬(pid ≠ -1 ∧ pid ∈ kept) from fun hcon => hnin2 hcon.2)]
          simp
        · rw [hps]
          simp only [List.filterMap_cons, hpid, List.countP_cons, hc]
          rw [decide_eq_true (show pid = -1 ∨ pid ∉ kept from Or.inr hnin2)]
          simp
        · intro hts
          exact hgood3 hts "-1" ts0 (hgood (fun u hu => hts u (by simp [hu])))
            goodTok_neg_one
  | case3 t h1 h2 =>
    intro out k c h
    match t, h1, h2, h with
    | [], h1, _, _ => exact (h1 rfl).elim
    | [a], _, _, h => simp [cleanTriplets] at h
    | [a, b], _, _, h => simp [cleanTriplets] at h
    | a :: b :: d :: r, _, h2, _ => exact (h2 a b d r rfl).elim


/-- Per-line specification of the observation-slot handling: the written
line's references are the cleaning map of the input line's references,
and the count contributions partition the line's references. -/
theorem cleanObsLine_spec (kept : List Int) (pts o : String) (n k c : ℕ)
    (h : cleanObsLine kept pts = some (o, n, k, c)) :
    refsOfLine o = (refsOfLine pts).map (fun p => if p ≠ -1 ∧ p ∈ kept then p else -1) ∧
    n = k + c ∧
    k = (refsOfLine pts).countP (fun p => decide (p ≠ -1 ∧ p ∈ kept)) ∧
    c = (refsOfLine pts).countP (fun p => decide (p = -1 ∨ p ∉ kept)) := by
  rw [cleanObsLine] at h
  split at h
  · rename_i hemp
    simp only [Option.some.injEq, Prod.mk.injEq] at h
    obtain ⟨rfl, rfl, rfl, rfl⟩ := h
    have hpts : splitWs pts = [] := List.isEmpty_iff.mp hemp
    have h0 : refsOfLine "" = [] := rfl
    rw [h0, refsOfLine, hpts]
    simp [refsOfTokens]
  · rename_i hemp
    split at h
    · rename_i hmod
      simp only [Option.some.injEq, Prod.mk.injEq] at h
      obtain ⟨rfl, rfl, rfl, rfl⟩ := h
      have h0 : refsOfLine pts = [] := by
        rw [refsOfLine, refsOfTokens, if_neg]
        intro hcon
        exact hmod hcon.2
      rw [h0]
      simp
    · rename_i hmod
      rw [not_not] at hmod
      simp only [Option.bind_eq_bind, Option.bind_eq_some] at h
      obtain ⟨⟨ts, k1, c1⟩, hts, h⟩ := h
      simp only [Option.some.injEq, Prod.mk.injEq] at h
      obtain ⟨rfl, rfl, rfl, rfl⟩ := h
      obtain ⟨hm, hlen, hsum, hmap, hk, hc, hgood⟩ :=
        cleanTriplets_spec kept (splitWs pts) ts k1 c1 hts
      have hlenpos : splitWs pts ≠ [] := by
        intro hcon
        rw [hcon] at hemp
        exact hemp rfl
      have h3 : 3 ≤ (splitWs pts).length := by
        have h1 : (splitWs pts).length ≠ 0 := fun hcon =>
          hlenpos (List.length_eq_zero.mp hcon)
        omega
      have hround : splitWs (joinToks ts) = ts :=
        splitWs_joinToks ts (hgood (fun t ht => goodTok_of_words pts t ht))
      have hrefsout : refsOfLine (joinToks ts) = (pidSlots ts).filterMap pyInt := by
        rw [refsOfLine, hround, refsOfTokens, if_pos ⟨by omega, by omega⟩]
      have hrefsin : refsOfLine pts = (pidSlots (splitWs pts)).filterMap pyInt := by
        rw [refsOfLine, refsOfTokens, if_pos ⟨h3, hmod⟩]
      refine ⟨?_, ?_, ?_, ?_⟩
      · rw [hrefsout, hrefsin, hmap]
      · omega
      · rw [hrefsin, hk]
      · rw [hrefsin, hc]

/-- Whole-run specification of `clean_points2d_refs`: the total count
partitions into kept and cleaned, and every observation pair in the run
arises from `cleanObsLine`. -/
theorem cleanLoop_spec (kept : List Int) (lines : List String) :
    ∀ out prs cams t k c, cleanLoop kept lines = some (out, prs, cams, t, k, c) →
    t = k + c ∧
    ∀ pr ∈ prs, ∃ n k0 c0, cleanObsLine kept pr.1 = some (pr.2, n, k0, c0) := by
  induction lines using cleanLoop.induct kept with
  | case1 =>
    intro out prs cams t k c h
    simp only [cleanLoop, Option.some.injEq, Prod.mk.injEq] at h
    obtain ⟨rfl, rfl, rfl, rfl, rfl, rfl⟩ := h
    simp
  | case2 l hl =>
    intro out prs cams t k c h
    rw [cleanLoop, if_pos hl] at h
    simp only [Option.some.injEq, Prod.mk.injEq] at h
    obtain ⟨rfl, rfl, rfl, rfl, rfl, rfl⟩ := h
    simp
  | case3 l hl =>
    intro out prs cams t k c h
    rw [cleanLoop, if_neg hl] at h
    simp only [Option.some.injEq, Prod.mk.injEq] at h
    obtain ⟨rfl, rfl, rfl, rfl, rfl, rfl⟩ := h
    simp
  | case4 l pts rest2 hl ih =>
    intro out prs cams t k c h
    rw [cleanLoop, if_pos hl] at h
    simp only [Option.bind_eq_bind, Option.bind_eq_some] at h
    obtain ⟨⟨out1, prs1, cams1, t1, k1, c1⟩, hrec, h⟩ := h
    simp only [Option.some.injEq, Prod.mk.injEq] at h
    obtain ⟨rfl, rfl, rfl, rfl, rfl, rfl⟩ := h
    exact ih out1 prs1 cams1 t1 k1 c1 hrec
  | case5 l pts rest2 hl ih =>
    intro out prs cams t k c h
    rw [cleanLoop, if_neg hl] at h
    simp only [Option.bind_eq_bind, Option.bind_eq_some] at h
    obtain ⟨⟨o, n, k0, c0⟩, hobs, h⟩ := h
    obtain ⟨⟨out1, prs1, cams1, t1, k1, c1⟩, hrec, h⟩ := h
    simp only [Option.some.injEq, Prod.mk.injEq] at h
    obtain ⟨rfl, rfl, rfl, rfl, rfl, rfl⟩ := h
    obtain ⟨hsum, hpairs⟩ := ih out1 prs1 cams1 t1 k1 c1 hrec
    obtain ⟨-, hnkc, -, -⟩ := cleanObsLine_spec kept pts o n k0 c0 hobs
    refine ⟨by omega, ?_⟩
    intro pr hpr
    rcases List.mem_cons.mp hpr with he | hpr
    · exact ⟨n, k0, c0, by rw [he]; exact hobs⟩
    · exact hpairs pr hpr


/-- C1: for every run of the reference-integrity repairer
(`clean_points2d_refs`) with any surviving point-id set, each written
observation line's reference list equals the input line's reference list
mapped so that a reference naming a surviving (non-sentinel) point is
unchanged and every other reference is the sentinel `-1`; consequently
every non-sentinel reference in every written observation line names a
point of the surviving set. -/
theorem clean_points2d_refs_closure :
    ∀ (kept : List Int) (t0 t1 : ℚ) (lines : List String) (r : CleanResult),
    cleanPoints2dRefs kept t0 t1 lines = some r →
    ∀ pr ∈ r.obsPairs,
      refsOfLine pr.2 =
        (refsOfLine pr.1).map (fun p => if p ≠ -1 ∧ p ∈ kept then p else -1) ∧
      ∀ q ∈ refsOfLine pr.2, q = -1 ∨ q ∈ kept := by
  intro kept t0 t1 lines r h pr hpr
  unfold cleanPoints2dRefs at h
  cases hc : cleanLoop kept lines with
  | none => rw [hc] at h; simp at h
  | some v =>
    obtain ⟨out, prs, cams, t, k, c⟩ := v
    rw [hc] at h
    simp only [Option.some.injEq] at h
    subst h
    obtain ⟨-, hpairs⟩ := cleanLoop_spec kept lines out prs cams t k c hc
    obtain ⟨n, k0, c0, hobs⟩ := hpairs pr hpr
    obtain ⟨hmap, -, -, -⟩ := cleanObsLine_spec kept pr.1 pr.2 n k0 c0 hobs
    refine ⟨hmap, ?_⟩
    intro q hq
    rw [hmap] at hq
    obtain ⟨p, hp, rfl⟩ := List.mem_map.mp hq
    by_cases hcase : p ≠ -1 ∧ p ∈ kept
    · rw [if_pos hcase]
      exact Or.inr hcase.2
    · rw [if_neg hcase]
      exact Or.inl rfl

/-- C1 witness: a concrete run with surviving set `{5}` over one image
whose observation line references points 9, 5 and the sentinel. -/
theorem clean_points2d_refs_closure_witness :
    (cleanPoints2dRefs [5] 0 1
        ["1 0 0 0 1 2 3 4 1 a.jpg", "7.0 8.0 9 1.5 2.5 5 2.0 2.0 -1"] =
      some ⟨["1 0 0 0 1 2 3 4 1 a.jpg", "7.0 8.0 -1 1.5 2.5 5 2.0 2.0 -1"],
        [("7.0 8.0 9 1.5 2.5 5 2.0 2.0 -1", "7.0 8.0 -1 1.5 2.5 5 2.0 2.0 -1")],
        ⟨1, 3, 1, 2, 1 - 0⟩⟩ ∧
      ("7.0 8.0 9 1.5 2.5 5 2.0 2.0 -1", "7.0 8.0 -1 1.5 2.5 5 2.0 2.0 -1") ∈
        [("7.0 8.0 9 1.5 2.5 5 2.0 2.0 -1", "7.0 8.0 -1 1.5 2.5 5 2.0 2.0 -1")]) ∧
    (refsOfLine "7.0 8.0 -1 1.5 2.5 5 2.0 2.0 -1" =
        (refsOfLine "7.0 8.0 9 1.5 2.5 5 2.0 2.0 -1").map
          (fun p => if p ≠ -1 ∧ p ∈ [5] then p else -1) ∧
      ∀ q ∈ refsOfLine "7.0 8.0 -1 1.5 2.5 5 2.0 2.0 -1", q = -1 ∨ q ∈ [5]) :=
  ⟨⟨rfl, by simp⟩,
    clean_points2d_refs_closure [5] 0 1
      ["1 0 0 0 1 2 3 4 1 a.jpg", "7.0 8.0 9 1.5 2.5 5 2.0 2.0 -1"]
      ⟨["1 0 0 0 1 2 3 4 1 a.jpg", "7.0 8.0 -1 1.5 2.5 5 2.0 2.0 -1"],
        [("7.0 8.0 9 1.5 2.5 5 2.0 2.0 -1", "7.0 8.0 -1 1.5 2.5 5 2.0 2.0 -1")],
        ⟨1, 3, 1, 2, 1 - 0⟩⟩ rfl
      ("7.0 8.0 9 1.5 2.5 5 2.0 2.0 -1", "7.0 8.0 -1 1.5 2.5 5 2.0 2.0 -1")
      (by simp)⟩

/-- C10: in every successful run of `clean_points2d_refs` the returned
counts satisfy `total_refs = kept_refs + cleaned_refs`, and per
observation line the kept and cleaned counts classify each counted
reference as exactly one of kept (non-sentinel and surviving) or cleaned
(sentinel or not surviving). -/
theorem clean_points2d_refs_count_partition :
    (∀ (kept : List Int) (t0 t1 : ℚ) (lines : List String) (r : CleanResult),
        cleanPoints2dRefs kept t0 t1 lines = some r →
        r.stats.total_refs = r.stats.kept_refs + r.stats.cleaned_refs) ∧
    (∀ (kept : List Int) (pts o : String) (n k c : ℕ),
        cleanObsLine kept pts = some (o, n, k, c) →
        n = k + c ∧
        k = (refsOfLine pts).countP (fun p => decide (p ≠ -1 ∧ p ∈ kept)) ∧
        c = (refsOfLine pts).countP (fun p => decide (p = -1 ∨ p ∉ kept))) := by
  constructor
  · intro kept t0 t1 lines r h
    unfold cleanPoints2dRefs at h
    cases hc : cleanLoop kept lines with
    | none => rw [hc] at h; simp at h
    | some v =>
      obtain ⟨out, prs, cams, t, k, c⟩ := v
      rw [hc] at h
      simp only [Option.some.injEq] at h
      subst h
      obtain ⟨hsum, -⟩ := cleanLoop_spec kept lines out prs cams t k c hc
      exact hsum
  · intro kept pts o n k c h
    obtain ⟨-, h2, h3, h4⟩ := cleanObsLine_spec kept pts o n k c h
    exact ⟨h2, h3, h4⟩

/-- C10 witness: a concrete run with surviving set `{7}` — two counted
references, one kept and one cleaned — and the per-line classification at
the concrete observation line. -/
theorem clean_points2d_refs_count_partition_witness :
    (cleanPoints2dRefs [7] 0 1 ["1 0 0 0 0 0 0 0 1 b.jpg", "1 2 7 3 4 8"] =
        some ⟨["1 0 0 0 0 0 0 0 1 b.jpg", "1 2 7 3 4 -1"],
          [("1 2 7 3 4 8", "1 2 7 3 4 -1")], ⟨1, 2, 1, 1, 1 - 0⟩⟩ ∧
      (⟨1, 2, 1, 1, 1 - 0⟩ : CleanStats).total_refs =
        (⟨1, 2, 1, 1, 1 - 0⟩ : CleanStats).kept_refs +
          (⟨1, 2, 1, 1, 1 - 0⟩ : CleanStats).cleaned_refs) ∧
    (cleanObsLine [7] "1 2 7 3 4 8" = some ("1 2 7 3 4 -1", 2, 1, 1) ∧
      (2 = 1 + 1 ∧
        1 = (refsOfLine "1 2 7 3 4 8").countP (fun p => decide (p ≠ -1 ∧ p ∈ [7])) ∧
        1 = (refsOfLine "1 2 7 3 4 8").countP (fun p => decide (p = -1 ∨ p ∉ [7])))) :=
  ⟨⟨rfl,
    clean_points2d_refs_count_partition.1 [7] 0 1
      ["1 0 0 0 0 0 0 0 1 b.jpg", "1 2 7 3 4 8"] _ rfl⟩,
    ⟨by decide,
      clean_points2d_refs_count_partition.2 [7] "1 2 7 3 4 8" "1 2 7 3 4 -1" 2 1 1
        (by decide)⟩⟩

/-- Statistics dict returned by `remove_outlier_cameras`. -/
structure RemStats where
  kept : ℕ
  removed : ℕ
  duration_s : ℚ
  deriving DecidableEq

/-- Main loop of `remove_outlier_cameras`: comment lines are copied; a
non-comment line with at least ten fields is a pose line whose name is
field 9 and whose following line is consumed as its observation line —
both are dropped when the name is an outlier and copied otherwise; a
non-comment line with fewer than ten fields is skipped without consuming
the next line.  Returns (written lines, kept count, removed count). -/
def removeLoop (names : List String) : List String → List String × ℕ × ℕ
  | [] => ([], 0, 0)
  | [l] =>
    if startsWithHash l then ([l], 0, 0)
    else if 10 ≤ (splitWs l).length then
      if names.contains ((splitWs l).getD 9 "") then ([], 0, 1)
      else ([l, ""], 1, 0)
    else ([], 0, 0)
  | l :: l2 :: rest =>
    if startsWithHash l then
      let (out, k, r) := removeLoop names (l2 :: rest)
      (l :: out, k, r)
    else if 10 ≤ (splitWs l).length then
      let (out, k, r) := removeLoop names rest
      if names.contains ((splitWs l).getD 9 "") then (out, k, r + 1)
      else (l :: l2 :: out, k + 1, r)
    else
      let (out, k, r) := removeLoop names (l2 :: rest)
      (out, k, r)

/-- Shallow embedding of `remove_outlier_cameras` from `filters.py`:
`names` models the `outlier_names` set, `t0` and `t1` the two
`time.time()` readings. -/
def removeOutlierCameras (names : List String) (t0 t1 : ℚ) (lines : List String) :
    List String × RemStats :=
  match removeLoop names lines with
  | (out, k, r) => (out, ⟨k, r, t1 - t0⟩)

/-- Clock-free projection of a cleaning result. -/
def stripClock (r : CleanResult) :
    List String × List (String × String) × ℕ × ℕ × ℕ × ℕ :=
  (r.out, r.obsPairs, r.stats.cameras, r.stats.total_refs, r.stats.kept_refs,
    r.stats.cleaned_refs)

/-- C9 (counterexample): two runs of `remove_outlier_cameras` on the
identical input and configuration but at different wall-clock instants
return different statistics dicts — the `duration_s` field records the
clock difference — refuting byte-identical statistics across runs. -/
theorem remove_outlier_cameras_stats_differ_across_runs :
    removeOutlierCameras [] 0 1 ["1 0 0 0 0 1 2 3 1 a.jpg", ""] ≠
      removeOutlierCameras [] 0 2 ["1 0 0 0 0 1 2 3 1 a.jpg", ""] := by
  intro hcon
  have h1 := congrArg (fun p => p.2.duration_s) hcon
  simp only [removeOutlierCameras] at h1
  simp at h1

/-- C9 (amended): the cleaning operations are deterministic in
everything except the wall-clock duration fields — two runs of
`remove_outlier_cameras` or `clean_points2d_refs` on identical inputs
and configuration, at arbitrary clock readings, produce identical output
lines and statistics in every field other than `duration_s`. -/
theorem cleaning_deterministic_modulo_durations :
    (∀ (names : List String) (lines : List String) (t0 t1 t0a t1a : ℚ),
        (removeOutlierCameras names t0 t1 lines).1 =
          (removeOutlierCameras names t0a t1a lines).1 ∧
        (removeOutlierCameras names t0 t1 lines).2.kept =
          (removeOutlierCameras names t0a t1a lines).2.kept ∧
        (removeOutlierCameras names t0 t1 lines).2.removed =
          (removeOutlierCameras names t0a t1a lines).2.removed) ∧
    (∀ (kept : List Int) (lines : List String) (t0 t1 t0a t1a : ℚ),
        (cleanPoints2dRefs kept t0 t1 lines).map stripClock =
          (cleanPoints2dRefs kept t0a t1a lines).map stripClock) := by
  constructor
  · intro names lines t0 t1 t0a t1a
    simp [removeOutlierCameras]
  · intro kept lines t0 t1 t0a t1a
    unfold cleanPoints2dRefs
    cases hc : cleanLoop kept lines with
    | none => simp
    | some v =>
      obtain ⟨out, prs, cams, t, k, c⟩ := v
      simp [stripClock]


/-! ## Text readers (`parsers.py`) -/

/-- Decimal digit test via code points. -/
def isDigit (c : Char) : Bool :=
  decide (48 ≤ c.toNat) && decide (c.toNat ≤ 57)

/-- Value of a digit run (caller guarantees digits). -/
def digitsToNat (cs : List Char) : ℕ :=
  cs.foldl (fun a c => a * 10 + (c.toNat - 48)) 0

/-- Exponent suffix of a float literal applied to mantissa `m`. -/
def pyFloatExp (m : ℚ) : List Char → Option ℚ
  | [] => some m
  | e :: rest =>
    if e = 'e' ∨ e = 'E' then
      match rest with
      | '-' :: ds =>
        if ds.isEmpty || !ds.all isDigit then none
        else some (m / 10 ^ digitsToNat ds)
      | '+' :: ds =>
        if ds.isEmpty || !ds.all isDigit then none
        else some (m * 10 ^ digitsToNat ds)
      | ds =>
        if ds.isEmpty || !ds.all isDigit then none
        else some (m * 10 ^ digitsToNat ds)
    else none

/-- Unsigned part of a float literal: digits, optional fraction, optional
exponent. -/
def pyFloatAux (cs : List Char) : Option ℚ :=
  let ip := cs.takeWhile isDigit
  let rest := cs.dropWhile isDigit
  match rest with
  | '.' :: rest2 =>
    let fp := rest2.takeWhile isDigit
    let rest3 := rest2.dropWhile isDigit
    if ip.isEmpty && fp.isEmpty then none
    else pyFloatExp ((digitsToNat ip : ℚ) + (digitsToNat fp : ℚ) / 10 ^ fp.length) rest3
  | rest =>
    if ip.isEmpty then none else pyFloatExp (digitsToNat ip : ℚ) rest

/-- Python `float(token)` on a whitespace-free token, with exact rational
semantics: optional sign, digits with optional fraction, optional
exponent.  (`inf`, `nan` and underscore separators are not modeled; IEEE
rounding is idealized away.) -/
def pyFloat (s : String) : Option ℚ :=
  match s.data with
  | '-' :: cs => (pyFloatAux cs).map Neg.neg
  | '+' :: cs => pyFloatAux cs
  | cs => pyFloatAux cs

/-- Parsed observation triplets of `parse_images_txt`:
`float(x), float(y), int(point3d_id)` for each group of three tokens. -/
def parseObsTriplets : List String → Option (List (ℚ × ℚ × Int))
  | [] => some []
  | x :: y :: p :: rest => do
    let xv ← pyFloat x
    let yv ← pyFloat y
    let pv ← pyInt p
    let r ← parseObsTriplets rest
    some ((xv, yv, pv) :: r)
  | _ => none

/-- POINTS2D line handling of `parse_images_txt`: triplets are parsed
only when the line has at least three tokens and a multiple of three of
them; otherwise the observation list is empty. -/
def parsePoints2dLine (pts : String) : Option (List (ℚ × ℚ × Int)) :=
  let tokens := splitWs pts
  if 3 ≤ tokens.length ∧ tokens.length % 3 = 0 then parseObsTriplets tokens
  else some []

/-- Image record yielded by `parse_images_txt`. -/
structure ImageTxt where
  image_id : Int
  qw : ℚ
  qx : ℚ
  qy : ℚ
  qz : ℚ
  tx : ℚ
  ty : ℚ
  tz : ℚ
  camera_id : Int
  name : String
  pose_line : String
  points2d_line : String
  points2d : List (ℚ × ℚ × Int)
  deriving DecidableEq

/-- Field extraction of one image record (caller guarantees at least ten
pose tokens). -/
def parseImageRecordTxt (line pts : String) : Option ImageTxt := do
  let parts := splitWs line
  let iid ← pyInt (parts.getD 0 "")
  let qw ← pyFloat (parts.getD 1 "")
  let qx ← pyFloat (parts.getD 2 "")
  let qy ← pyFloat (parts.getD 3 "")
  let qz ← pyFloat (parts.getD 4 "")
  let tx ← pyFloat (parts.getD 5 "")
  let ty ← pyFloat (parts.getD 6 "")
  let tz ← pyFloat (parts.getD 7 "")
  let cid ← pyInt (parts.getD 8 "")
  let p2 ← parsePoints2dLine pts
  some ⟨iid, qw, qx, qy, qz, tx, ty, tz, cid, parts.getD 9 "", line, pts, p2⟩

/-- Main loop of `parse_images_txt`: comment and blank lines are
skipped; a non-comment line with fewer than ten tokens is skipped by
`continue` without consuming the next line; otherwise the next line (an
empty default at end of file) is consumed as the POINTS2D line and a
record is yielded. -/
def parseImagesTxt : List String → Option (List ImageTxt)
  | [] => some []
  | [l] =>
    if startsWithHash l || (splitWs l).isEmpty then some []
    else if (splitWs l).length < 10 then some []
    else do
      let r ← parseImageRecordTxt l ""
      some [r]
  | l :: l2 :: rest =>
    if startsWithHash l || (splitWs l).isEmpty then parseImagesTxt (l2 :: rest)
    else if (splitWs l).length < 10 then parseImagesTxt (l2 :: rest)
    else do
      let r ← parseImageRecordTxt l l2
      let rs ← parseImagesTxt rest
      some (r :: rs)

/-- Point record yielded by `parse_points3d_txt`. -/
structure PointTxt where
  point3d_id : Int
  x : ℚ
  y : ℚ
  z : ℚ
  r : Int
  g : Int
  b : Int
  error : ℚ
  track : List (Int × Int)
  line : String
  deriving DecidableEq

/-- Track parsing of `parse_points3d_txt`: `(image_id, point2d_idx)`
pairs from the tokens after position 8; a trailing unpaired token is
silently ignored (`if i + 1 < len(parts)`). -/
def parseTrackPairs : List String → Option (List (Int × Int))
  | a :: b :: rest => do
    let av ← pyInt a
    let bv ← pyInt b
    let r ← parseTrackPairs rest
    some ((av, bv) :: r)
  | _ => some []

/-- Main loop of `parse_points3d_txt`: comment and blank lines are
skipped; a non-comment line with fewer than eight tokens is skipped by
`continue`; otherwise the eight leading fields and the track are
parsed. -/
def parsePoints3dTxt : List String → Option (List PointTxt)
  | [] => some []
  | l :: rest =>
    if startsWithHash l || (splitWs l).isEmpty then parsePoints3dTxt rest
    else if (splitWs l).length < 8 then parsePoints3dTxt rest
    else do
      let parts := splitWs l
      let pid ← pyInt (parts.getD 0 "")
      let xv ← pyFloat (parts.getD 1 "")
      let yv ← pyFloat (parts.getD 2 "")
      let zv ← pyFloat (parts.getD 3 "")
      let rv ← pyInt (parts.getD 4 "")
      let gv ← pyInt (parts.getD 5 "")
      let bv ← pyInt (parts.getD 6 "")
      let ev ← pyFloat (parts.getD 7 "")
      let tr ← parseTrackPairs (parts.drop 8)
      let rs ← parsePoints3dTxt rest
      some (⟨pid, xv, yv, zv, rv, gv, bv, ev, tr, l⟩ :: rs)


/-- C8 (counterexample): a pose line with only nine fields and a points3D
line with only seven fields are silently skipped by the text readers —
both parses succeed with zero records — refuting the claim that such
malformed lines cause an error. -/
theorem text_readers_skip_short_lines :
    parseImagesTxt ["1 0.0 0.0 0.0 1.0 0.5 0.5 0.5 1"] = some [] ∧
    parsePoints3dTxt ["1 0.5 0.5 0.5 255 0 0"] = some [] :=
  ⟨by decide, by decide⟩

/-- C8 (amended): a non-comment non-blank pose line with fewer than ten
fields, and a points3D line with fewer than eight fields, are silently
skipped (dropped from the record stream with no error and, for pose
lines, without consuming the following line); an unreadable number in a
consumed field, by contrast, makes the whole parse fail. -/
theorem text_readers_malformed_line_handling :
    (∀ (l : String) (rest : List String),
        startsWithHash l = false → (splitWs l).isEmpty = false →
        (splitWs l).length < 10 →
        parseImagesTxt (l :: rest) = parseImagesTxt rest) ∧
    (∀ (l : String) (rest : List String),
        startsWithHash l = false → (splitWs l).isEmpty = false →
        (splitWs l).length < 8 →
        parsePoints3dTxt (l :: rest) = parsePoints3dTxt rest) ∧
    (∀ (l l2 : String) (rest : List String),
        startsWithHash l = false → 10 ≤ (splitWs l).length →
        pyInt ((splitWs l).getD 0 "") = none →
        parseImagesTxt (l :: l2 :: rest) = none) ∧
    (∀ (l : String) (rest : List String),
        startsWithHash l = false → 8 ≤ (splitWs l).length →
        pyInt ((splitWs l).getD 0 "") = none →
        parsePoints3dTxt (l :: rest) = none) := by
  have hempty : ∀ (l : String) (n : ℕ), n ≤ (splitWs l).length → 1 ≤ n →
      (splitWs l).isEmpty = false := by
    intro l n hn h1
    cases hi : (splitWs l).isEmpty
    · rfl
    · rw [List.isEmpty_iff] at hi
      rw [hi] at hn
      simp at hn
      omega
  refine ⟨?_, ?_, ?_, ?_⟩
  · intro l rest h1 h2 h3
    cases rest with
    | nil => simp [parseImagesTxt, h1, h2, h3]
    | cons l2 rest2 => simp [parseImagesTxt, h1, h2, h3]
  · intro l rest h1 h2 h3
    simp [parsePoints3dTxt, h1, h2, h3]
  · intro l l2 rest h1 h10 hpid
    have h2 := hempty l 10 h10 (by omega)
    simp only [List.getD_eq_getElem?_getD] at hpid
    simp [parseImagesTxt, h1, h2, show ¬(splitWs l).length < 10 by omega,
      parseImageRecordTxt, hpid]
  · intro l rest h1 h8 hpid
    have h2 := hempty l 8 h8 (by omega)
    simp only [List.getD_eq_getElem?_getD] at hpid
    rw [parsePoints3dTxt]
    rw [if_neg (by simp [h1, h2]), if_neg (by omega)]
    simp [hpid]

/-- C8 witness: the amended behavior evaluated on concrete short and
unreadable lines. -/
theorem text_readers_malformed_line_handling_witness :
    ((startsWithHash "1 2 3" = false ∧ (splitWs "1 2 3").isEmpty = false ∧
        (splitWs "1 2 3").length < 10) ∧
      parseImagesTxt ["1 2 3"] = parseImagesTxt []) ∧
    ((startsWithHash "4 5 6" = false ∧ (splitWs "4 5 6").isEmpty = false ∧
        (splitWs "4 5 6").length < 8) ∧
      parsePoints3dTxt ["4 5 6"] = parsePoints3dTxt []) ∧
    ((startsWithHash "x 0 0 0 0 0 0 0 0 n.jpg" = false ∧
        10 ≤ (splitWs "x 0 0 0 0 0 0 0 0 n.jpg").length ∧
        pyInt ((splitWs "x 0 0 0 0 0 0 0 0 n.jpg").getD 0 "") = none) ∧
      parseImagesTxt ["x 0 0 0 0 0 0 0 0 n.jpg", ""] = none) ∧
    ((startsWithHash "y 0 0 0 255 0 0 1.5" = false ∧
        8 ≤ (splitWs "y 0 0 0 255 0 0 1.5").length ∧
        pyInt ((splitWs "y 0 0 0 255 0 0 1.5").getD 0 "") = none) ∧
      parsePoints3dTxt ["y 0 0 0 255 0 0 1.5"] = none) :=
  ⟨⟨⟨by decide, by decide, by decide⟩,
      text_readers_malformed_line_handling.1 "1 2 3" [] (by decide) (by decide)
        (by decide)⟩,
    ⟨⟨by decide, by decide, by decide⟩,
      text_readers_malformed_line_handling.2.1 "4 5 6" [] (by decide) (by decide)
        (by decide)⟩,
    ⟨⟨by decide, by decide, by decide⟩,
      text_readers_malformed_line_handling.2.2.1 "x 0 0 0 0 0 0 0 0 n.jpg" "" []
        (by decide) (by decide) (by decide)⟩,
    ⟨⟨by decide, by decide, by decide⟩,
      text_readers_malformed_line_handling.2.2.2 "y 0 0 0 255 0 0 1.5" []
        (by decide) (by decide) (by decide)⟩⟩


/-! ## Camera outlier analysis (`analyze_cameras`)

All thresholds and distances are represented by their squares in `ℚ`,
since the source compares Euclidean distances; the claim theorems state
the corresponding real-valued inequalities through `Real.sqrt`. -/

/-- One camera position extracted by `analyze_cameras`:
`(name, tx, ty, tz)`. -/
structure Cam where
  name : String
  tx : ℚ
  ty : ℚ
  tz : ℚ
  deriving DecidableEq

/-- Reading loop of `analyze_cameras`: comment lines are skipped; a line
with at least ten fields contributes `(parts[9], float(parts[5..7]))` and
the following line is consumed by `next(f, None)`; shorter lines are
skipped. -/
def extractCameras : List String → Option (List Cam)
  | [] => some []
  | [l] =>
    if startsWithHash l then some []
    else if 10 ≤ (splitWs l).length then do
      let tx ← pyFloat ((splitWs l).getD 5 "")
      let ty ← pyFloat ((splitWs l).getD 6 "")
      let tz ← pyFloat ((splitWs l).getD 7 "")
      some [⟨(splitWs l).getD 9 "", tx, ty, tz⟩]
    else some []
  | l :: l2 :: rest =>
    if startsWithHash l then extractCameras (l2 :: rest)
    else if 10 ≤ (splitWs l).length then do
      let tx ← pyFloat ((splitWs l).getD 5 "")
      let ty ← pyFloat ((splitWs l).getD 6 "")
      let tz ← pyFloat ((splitWs l).getD 7 "")
      let rs ← extractCameras rest
      some (⟨(splitWs l).getD 9 "", tx, ty, tz⟩ :: rs)
    else extractCameras (l2 :: rest)

/-- Exact `statistics.median`: the middle element of the sorted list for
odd length, the mean of the two middle elements for even length. -/
def medianQ (l : List ℚ) : ℚ :=
  let s := List.insertionSort (· ≤ ·) l
  if l.length % 2 = 1 then s.getD (l.length / 2) 0
  else (s.getD (l.length / 2 - 1) 0 + s.getD (l.length / 2) 0) / 2

/-- Squared Euclidean distance of a camera position to the point
`(mx, my, mz)`. -/
def distSqTo (mx my mz : ℚ) (c : Cam) : ℚ :=
  (c.tx - mx) ^ 2 + (c.ty - my) ^ 2 + (c.tz - mz) ^ 2

/-- Squared form of the auto-threshold exclusion test
`d > max(100.0, p99 * 2.5)` of `analyze_cameras`: for nonnegative `d`
and `p99` this holds exactly when `d² > 100²` and `4 d² > 25 p99²`. -/
def autoOutlierTest (dSq p99Sq : ℚ) : Bool :=
  decide (10000 < dSq) && decide (25 * p99Sq < 4 * dSq)

/-- Fold-based minimum of a rational list (Python `min`, defined for
nonempty input). -/
def minQ (l : List ℚ) : ℚ :=
  l.foldl min (l.getD 0 0)

/-- Fold-based maximum of a rational list (Python `max`, defined for
nonempty input). -/
def maxQ (l : List ℚ) : ℚ :=
  l.foldl max (l.getD 0 0)

/-- Analysis dict of `analyze_cameras` (distances represented squared;
the real threshold `max(100.0, p99 * 2.5)` is determined by `p99Sq`). -/
structure Analysis where
  cameras : List Cam
  medTx : ℚ
  medTy : ℚ
  medTz : ℚ
  distsSqDesc : List (ℚ × Cam)
  p99Sq : ℚ
  outliers : List (ℚ × Cam)
  total : ℕ
  rangesTx : ℚ × ℚ
  rangesTy : ℚ × ℚ
  rangesTz : ℚ × ℚ
  deriving DecidableEq

/-- Computation of `analyze_cameras` after the reading loop: coordinate
medians, squared distances (sorted descending; the Python tuple sort also
orders ties by the remaining components, which only reorders
equal-distance entries), the empirical 99th-percentile squared distance
at index `int(n * 0.99)` (modeled as `99 * n / 100`), and the outliers
under the auto threshold. -/
def analysisOf (cams : List Cam) : Analysis :=
  let mx := medianQ (cams.map (·.tx))
  let my := medianQ (cams.map (·.ty))
  let mz := medianQ (cams.map (·.tz))
  let dists := cams.map (fun c => (distSqTo mx my mz c, c))
  let sortedSq := List.insertionSort (· ≤ ·) (dists.map (·.1))
  let p99Sq := sortedSq.getD (99 * cams.length / 100) 0
  let distsDesc := List.insertionSort (fun a b => b.1 ≤ a.1) dists
  ⟨cams, mx, my, mz, distsDesc, p99Sq,
    distsDesc.filter (fun dc => autoOutlierTest dc.1 p99Sq), cams.length,
    (minQ (cams.map (·.tx)), maxQ (cams.map (·.tx))),
    (minQ (cams.map (·.ty)), maxQ (cams.map (·.ty))),
    (minQ (cams.map (·.tz)), maxQ (cams.map (·.tz)))⟩

/-- Embedding of `analyze_cameras` on an extracted camera list:
`statistics.median` raises on an empty input. -/
def analyzeCameras (cams : List Cam) : Option Analysis :=
  if cams.isEmpty then none else some (analysisOf cams)

/-- Embedding of `analyze_cameras` from the images file. -/
def analyzeCamerasTxt (lines : List String) : Option Analysis := do
  let cams ← extractCameras lines
  analyzeCameras cams

/-- Squared distances are nonnegative. -/
theorem distSqTo_nonneg (mx my mz : ℚ) (c : Cam) : 0 ≤ distSqTo mx my mz c := by
  unfold distSqTo
  positivity

/-- The percentile value of a nonnegative list is nonnegative. -/
theorem getD_insertionSort_nonneg (l : List ℚ) (h : ∀ x ∈ l, 0 ≤ x) (n : ℕ) :
    0 ≤ (List.insertionSort (· ≤ ·) l).getD n 0 := by
  by_cases hn : n < (List.insertionSort (· ≤ ·) l).length
  · rw [List.getD_eq_getElem _ 0 hn]
    refine h _ ?_
    exact (List.perm_insertionSort (· ≤ ·) l).mem_iff.mp (List.getElem_mem hn)
  · rw [List.getD_eq_default]
    omega

/-- The stored percentile square of an analysis is nonnegative. -/
theorem analysisOf_p99Sq_nonneg (cams : List Cam) : 0 ≤ (analysisOf cams).p99Sq := by
  have h : ∀ x ∈ (cams.map (fun c =>
      (distSqTo (medianQ (cams.map (·.tx))) (medianQ (cams.map (·.ty)))
        (medianQ (cams.map (·.tz))) c, c))).map (·.1), 0 ≤ x := by
    intro x hx
    simp only [List.map_map, List.mem_map] at hx
    obtain ⟨c, -, rfl⟩ := hx
    exact distSqTo_nonneg _ _ _ c
  exact getD_insertionSort_nonneg _ h _

/-- Real-valued reading of the squared auto-threshold test: it holds
exactly when the Euclidean distance strictly exceeds
`max(100, 2.5 * p99_distance)`. -/
theorem autoOutlierTest_iff (dSq p99Sq : ℚ) (hd : 0 ≤ dSq) (hp : 0 ≤ p99Sq) :
    autoOutlierTest dSq p99Sq = true ↔
      max 100 (2.5 * Real.sqrt (p99Sq : ℝ)) < Real.sqrt (dSq : ℝ) := by
  have hdr : (0 : ℝ) ≤ (dSq : ℝ) := by exact_mod_cast hd
  have hpr : (0 : ℝ) ≤ (p99Sq : ℝ) := by exact_mod_cast hp
  rw [autoOutlierTest, Bool.and_eq_true, decide_eq_true_eq, decide_eq_true_eq,
    max_lt_iff]
  constructor
  · rintro ⟨h1, h2⟩
    constructor
    · rw [show (100 : ℝ) = Real.sqrt (100 ^ 2) by
        rw [Real.sqrt_sq]; norm_num]
      apply Real.sqrt_lt_sqrt (by norm_num)
      exact_mod_cast h1
    · rw [show (2.5 : ℝ) * Real.sqrt (p99Sq : ℝ) =
          Real.sqrt (6.25 * (p99Sq : ℝ)) by
        rw [Real.sqrt_mul (by norm_num), show (6.25 : ℝ) = 2.5 ^ 2 by norm_num,
          Real.sqrt_sq (by norm_num)]]
      apply Real.sqrt_lt_sqrt (by positivity)
      have : (25 : ℝ) * (p99Sq : ℝ) < 4 * (dSq : ℝ) := by exact_mod_cast h2
      linarith
  · rintro ⟨h1, h2⟩
    constructor
    · have := Real.sqrt_lt_sqrt (by norm_num : (0:ℝ) ≤ 100 ^ 2)
          (show (100 : ℝ) ^ 2 < (dSq : ℝ) by
            nlinarith [Real.sq_sqrt hdr, Real.sqrt_nonneg (dSq : ℝ), h1])
      exact_mod_cast (show (10000 : ℝ) < (dSq : ℝ) by
        nlinarith [Real.sq_sqrt hdr, Real.sqrt_nonneg (dSq : ℝ), h1])
    · have h3 : (2.5 : ℝ) * Real.sqrt (p99Sq : ℝ) ≥ 0 := by positivity
      have h4 := Real.sq_sqrt hdr
      have h5 := Real.sq_sqrt hpr
      have h6 : (2.5 * Real.sqrt (p99Sq : ℝ)) ^ 2 < Real.sqrt (dSq : ℝ) ^ 2 := by
        apply sq_lt_sq' _ h2
        nlinarith [Real.sqrt_nonneg (dSq : ℝ)]
      rw [mul_pow, h4] at h6
      have : (25 : ℝ) * (p99Sq : ℝ) < 4 * (dSq : ℝ) := by nlinarith
      exact_mod_cast this

/-- Membership of a camera's entry in the outlier list is exactly the
auto-threshold test on its squared distance. -/
theorem mem_outliers_iff (cams : List Cam) (c : Cam) (hc : c ∈ cams) :
    ((distSqTo (analysisOf cams).medTx (analysisOf cams).medTy
        (analysisOf cams).medTz c, c) ∈ (analysisOf cams).outliers ↔
      autoOutlierTest
        (distSqTo (analysisOf cams).medTx (analysisOf cams).medTy
          (analysisOf cams).medTz c) (analysisOf cams).p99Sq = true) := by
  constructor
  · intro hmem
    rw [analysisOf] at hmem
    simp only [List.mem_filter] at hmem
    exact hmem.2
  · intro htest
    rw [analysisOf]
    simp only [List.mem_filter]
    refine ⟨?_, htest⟩
    apply (List.perm_insertionSort _ _).mem_iff.mpr
    exact List.mem_map_of_mem _ hc


/-- Specification of the auto-threshold outlier analysis on a camera
set: the analysis succeeds, the center is the coordinate-wise median,
the percentile square is taken at index `int(n * 0.99)` of the ascending
squared distances of the whole set, and a camera is an outlier exactly
when its Euclidean distance to the median strictly exceeds
`max(100, 2.5 * p99_distance)` — a camera at exactly the threshold is
kept. -/
def CameraThresholdSpec (cams : List Cam) : Prop :=
  analyzeCameras cams = some (analysisOf cams) ∧
  (analysisOf cams).medTx = medianQ (cams.map (·.tx)) ∧
  (analysisOf cams).medTy = medianQ (cams.map (·.ty)) ∧
  (analysisOf cams).medTz = medianQ (cams.map (·.tz)) ∧
  (analysisOf cams).p99Sq =
    (List.insertionSort (· ≤ ·) (cams.map (fun c =>
      distSqTo (analysisOf cams).medTx (analysisOf cams).medTy
        (analysisOf cams).medTz c))).getD (99 * cams.length / 100) 0 ∧
  ∀ c ∈ cams,
    (((distSqTo (analysisOf cams).medTx (analysisOf cams).medTy
          (analysisOf cams).medTz c, c) ∈ (analysisOf cams).outliers) ↔
      max 100 (2.5 * Real.sqrt ((analysisOf cams).p99Sq : ℝ)) <
        Real.sqrt ((distSqTo (analysisOf cams).medTx (analysisOf cams).medTy
          (analysisOf cams).medTz c : ℚ) : ℝ)) ∧
    (Real.sqrt ((distSqTo (analysisOf cams).medTx (analysisOf cams).medTy
          (analysisOf cams).medTz c : ℚ) : ℝ) =
        max 100 (2.5 * Real.sqrt ((analysisOf cams).p99Sq : ℝ)) →
      (distSqTo (analysisOf cams).medTx (analysisOf cams).medTy
        (analysisOf cams).medTz c, c) ∉ (analysisOf cams).outliers)

/-- C5: for every non-empty camera set the detector derives the
threshold `max(100, 2.5 * p99_distance)` with the 99th-percentile
distance computed over the whole set including outliers, distances
Euclidean to the coordinate-wise median, and classifies a camera outlier
exactly when its distance strictly exceeds the threshold (ties are
kept). -/
theorem camera_outlier_threshold_spec (cams : List Cam) (hne : cams ≠ []) :
    CameraThresholdSpec cams := by
  refine ⟨?_, rfl, rfl, rfl, ?_, ?_⟩
  · rw [analyzeCameras, if_neg]
    simp [List.isEmpty_iff, hne]
  · simp only [analysisOf, List.map_map]
    rfl
  · intro c hc
    have hiff := (mem_outliers_iff cams c hc).trans
      (autoOutlierTest_iff _ _ (distSqTo_nonneg _ _ _ c) (analysisOf_p99Sq_nonneg cams))
    refine ⟨hiff, ?_⟩
    intro heq hmem
    rw [hiff] at hmem
    rw [heq] at hmem
    exact lt_irrefl _ hmem

/-- Concrete three-camera set: two clustered cameras and one at distance
200 from the median. -/
def camsEx : List Cam := [⟨"a", 0, 0, 0⟩, ⟨"b", 1, 0, 0⟩, ⟨"c", 200, 0, 0⟩]

/-- C5 witness: the threshold specification evaluated on the concrete
three-camera set. -/
theorem camera_outlier_threshold_spec_witness :
    camsEx ≠ [] ∧ CameraThresholdSpec camsEx :=
  ⟨by simp [camsEx], camera_outlier_threshold_spec camsEx (by simp [camsEx])⟩

/-! ## Auto outlier removal (`remove_outlier_cameras_auto`) -/

/-- Form of the threshold used by `remove_outlier_cameras_auto`: an
explicit value, or the auto threshold `max(100, 2.5 * p99)` determined
by the percentile square of the analysis. -/
inductive ThresholdUsed where
  | fixed (t : ℚ)
  | auto (p99Sq : ℚ)
  deriving DecidableEq

/-- Squared form of the exclusion test `d > t` against an explicit
threshold `t`: for `d = √dSq ≥ 0` this holds exactly when `t < 0` or
`t² < dSq`. -/
def explicitOutlierTest (dSq t : ℚ) : Bool :=
  decide (t < 0) || decide (t ^ 2 < dSq)

/-- Result dict of `remove_outlier_cameras_auto`. -/
structure AutoResult where
  out : List String
  kept : ℕ
  removed : ℕ
  duration_s : ℚ
  analysis : Analysis
  thresholdUsed : ThresholdUsed
  deriving DecidableEq

/-- Shallow embedding of `remove_outlier_cameras_auto` from
`filters.py`: it runs `analyze_cameras`, takes the analysis threshold
when `threshold` is `None`, recomputes the outlier names against the
chosen threshold, and delegates to `remove_outlier_cameras`.  The
`percentile`, `multiplier` and `min_threshold` parameters are accepted
and never read, exactly as in the source. -/
def removeOutlierCamerasAuto (linesIn : List String) (threshold : Option ℚ)
    (percentile multiplier min_threshold : ℚ) (t0 t1 : ℚ) : Option AutoResult := do
  let cams ← extractCameras linesIn
  let a ← analyzeCameras cams
  let outlierNames := (cams.filter (fun c =>
    match threshold with
    | some t => explicitOutlierTest (distSqTo a.medTx a.medTy a.medTz c) t
    | none => autoOutlierTest (distSqTo a.medTx a.medTy a.medTz c) a.p99Sq)).map
    (fun c => c.name)
  let r := removeOutlierCameras outlierNames t0 t1 linesIn
  some ⟨r.1, r.2.kept, r.2.removed, r.2.duration_s, a,
    match threshold with
    | some t => ThresholdUsed.fixed t
    | none => ThresholdUsed.auto a.p99Sq⟩

/-- C6 (code evaluation): with `threshold=None`, the entire result of
`remove_outlier_cameras_auto` — including `threshold_used` — is
identical for any two settings of `percentile`, `multiplier` and
`min_threshold`: the function accepts these parameters but never reads
them, so no configured value can change the auto-derived threshold. -/
theorem remove_outlier_cameras_auto_ignores_params :
    ∀ (linesIn : List String) (p m mt p2 m2 mt2 t0 t1 : ℚ),
    removeOutlierCamerasAuto linesIn none p m mt t0 t1 =
      removeOutlierCamerasAuto linesIn none p2 m2 mt2 t0 t1 :=
  fun _ _ _ _ _ _ _ _ _ => rfl


/-! ## Spatial point filter (`filter_points3d_kdtree`)

The scipy KD-tree is modeled by its documented contract: a query with
`distance_upper_bound` returns the nearest-reference distance when one
lies within the bound and infinity otherwise, so composed with the
source's `dist <= threshold` comparison a candidate is kept exactly when
its nearest squared distance is within the squared threshold. -/

/-- Point of the reference cloud (exact rational coordinates). -/
structure Vec3 where
  x : ℚ
  y : ℚ
  z : ℚ
  deriving DecidableEq

/-- Row-major 3x3 transform applied as `coords · Mᵀ`
(`ply_vertices_to_colmap_coords`). -/
def applyTransform (m : List ℚ) (v : Vec3) : Vec3 :=
  ⟨v.x * m.getD 0 0 + v.y * m.getD 1 0 + v.z * m.getD 2 0,
    v.x * m.getD 3 0 + v.y * m.getD 4 0 + v.z * m.getD 5 0,
    v.x * m.getD 6 0 + v.y * m.getD 7 0 + v.z * m.getD 8 0⟩

/-- Squared Euclidean distance between two points. -/
def sqDist3 (a b : Vec3) : ℚ :=
  (a.x - b.x) ^ 2 + (a.y - b.y) ^ 2 + (a.z - b.z) ^ 2

theorem sqDist3_nonneg (a b : Vec3) : 0 ≤ sqDist3 a b := by
  unfold sqDist3
  positivity

/-- Squared comparison encoding `√dSq ≤ t`. -/
def sqrtLe (dSq t : ℚ) : Bool :=
  decide (0 ≤ t) && decide (dSq ≤ t ^ 2)

/-- Smallest squared distance from `q` to the reference set (`none` for
an empty set, where the KD-tree query reports infinity). -/
def nearestSqDist (refs : List Vec3) (q : Vec3) : Option ℚ :=
  match refs.map (fun r => sqDist3 q r) with
  | [] => none
  | d :: ds => some (ds.foldl min d)

/-- Keep decision of `filter_points3d_kdtree` for one candidate:
`dist, _ = tree.query([x, y, z], distance_upper_bound=threshold)`
followed by `dist <= threshold`, under the documented query contract. -/
def keepPoint (refs : List Vec3) (threshold : ℚ) (q : Vec3) : Bool :=
  match nearestSqDist refs q with
  | none => false
  | some dSq => sqrtLe dSq threshold

/-- Real reading of the squared comparison. -/
theorem sqrtLe_iff (dSq t : ℚ) (hd : 0 ≤ dSq) :
    sqrtLe dSq t = true ↔ Real.sqrt ((dSq : ℚ) : ℝ) ≤ ((t : ℚ) : ℝ) := by
  have hdr : (0 : ℝ) ≤ ((dSq : ℚ) : ℝ) := by exact_mod_cast hd
  rw [sqrtLe, Bool.and_eq_true, decide_eq_true_eq, decide_eq_true_eq]
  constructor
  · rintro ⟨h1, h2⟩
    have h1r : (0 : ℝ) ≤ ((t : ℚ) : ℝ) := by exact_mod_cast h1
    have h2r : ((dSq : ℚ) : ℝ) ≤ ((t : ℚ) : ℝ) ^ 2 := by exact_mod_cast h2
    calc Real.sqrt ((dSq : ℚ) : ℝ) ≤ Real.sqrt (((t : ℚ) : ℝ) ^ 2) :=
          Real.sqrt_le_sqrt h2r
      _ = ((t : ℚ) : ℝ) := Real.sqrt_sq h1r
  · intro h
    have ht : (0 : ℝ) ≤ ((t : ℚ) : ℝ) := le_trans (Real.sqrt_nonneg _) h
    refine ⟨by exact_mod_cast ht, ?_⟩
    have hs := Real.sq_sqrt hdr
    have h2 : ((dSq : ℚ) : ℝ) ≤ ((t : ℚ) : ℝ) ^ 2 := by
      nlinarith [Real.sqrt_nonneg ((dSq : ℚ) : ℝ)]
    exact_mod_cast h2

/-- Comparison of a running minimum against a bound. -/
theorem foldl_min_le_iff (ds : List ℚ) : ∀ d x : ℚ,
    ds.foldl min d ≤ x ↔ d ≤ x ∨ ∃ e ∈ ds, e ≤ x := by
  induction ds with
  | nil => simp
  | cons a ds ih =>
    intro d x
    rw [List.foldl_cons, ih]
    simp only [min_le_iff, List.mem_cons]
    constructor
    · rintro ((h | h) | ⟨e, he, hx⟩)
      · exact Or.inl h
      · exact Or.inr ⟨a, Or.inl rfl, h⟩
      · exact Or.inr ⟨e, Or.inr he, hx⟩
    · rintro (h | ⟨e, (he | he), hx⟩)
      · exact Or.inl (Or.inl h)
      · exact Or.inl (Or.inr (he ▸ hx))
      · exact Or.inr ⟨e, he, hx⟩

/-- C4: for every nonempty reference point set, every threshold and
every candidate, the spatial point filter keeps the candidate exactly
when its nearest-reference Euclidean distance is at most the threshold —
the comparison is inclusive, so a candidate at exactly the threshold
distance is kept. -/
theorem spatial_filter_threshold_inclusive (refs : List Vec3) (threshold : ℚ)
    (q : Vec3) (hne : refs ≠ []) :
    keepPoint refs threshold q = true ↔
      ∃ r ∈ refs, Real.sqrt ((sqDist3 q r : ℚ) : ℝ) ≤ ((threshold : ℚ) : ℝ) := by
  obtain ⟨r0, rs, rfl⟩ := List.exists_cons_of_ne_nil hne
  have hkeep : keepPoint (r0 :: rs) threshold q =
      sqrtLe ((rs.map (fun r => sqDist3 q r)).foldl min (sqDist3 q r0)) threshold := rfl
  rw [hkeep]
  have hkey : sqrtLe ((rs.map (fun r => sqDist3 q r)).foldl min (sqDist3 q r0))
      threshold = true ↔
      (0 ≤ threshold ∧
        (rs.map (fun r => sqDist3 q r)).foldl min (sqDist3 q r0) ≤ threshold ^ 2) := by
    rw [sqrtLe, Bool.and_eq_true, decide_eq_true_eq, decide_eq_true_eq]
  have hpt : ∀ r : Vec3, (Real.sqrt ((sqDist3 q r : ℚ) : ℝ) ≤ ((threshold : ℚ) : ℝ)
      ↔ (0 ≤ threshold ∧ sqDist3 q r ≤ threshold ^ 2)) := by
    intro r
    rw [← sqrtLe_iff _ _ (sqDist3_nonneg q r), sqrtLe, Bool.and_eq_true,
      decide_eq_true_eq, decide_eq_true_eq]
  rw [hkey]
  constructor
  · rintro ⟨ht, hm⟩
    rcases (foldl_min_le_iff _ _ _).mp hm with h | ⟨e, he, hx⟩
    · exact ⟨r0, by simp, (hpt r0).mpr ⟨ht, h⟩⟩
    · obtain ⟨r, hr, rfl⟩ := List.mem_map.mp he
      exact ⟨r, by simp [hr], (hpt r).mpr ⟨ht, hx⟩⟩
  · rintro ⟨r, hr, hle⟩
    obtain ⟨ht, hsq⟩ := (hpt r).mp hle
    refine ⟨ht, (foldl_min_le_iff _ _ _).mpr ?_⟩
    rcases List.mem_cons.mp hr with he | hr
    · exact Or.inl (he ▸ hsq)
    · exact Or.inr ⟨sqDist3 q r, List.mem_map_of_mem _ hr, hsq⟩

/-- C4 witness: the keep decision characterized on the single-point
reference set at the origin. -/
theorem spatial_filter_threshold_inclusive_witness :
    ([⟨0, 0, 0⟩] : List Vec3) ≠ [] ∧
    (keepPoint [⟨0, 0, 0⟩] 1 ⟨1, 0, 0⟩ = true ↔
      ∃ r ∈ ([⟨0, 0, 0⟩] : List Vec3),
        Real.sqrt ((sqDist3 ⟨1, 0, 0⟩ r : ℚ) : ℝ) ≤ ((1 : ℚ) : ℝ)) :=
  ⟨by simp, spatial_filter_threshold_inclusive [⟨0, 0, 0⟩] 1 ⟨1, 0, 0⟩ (by simp)⟩

/-- Result dict of `filter_points3d_kdtree`.  (The float-infinity-seeded
running before/after coordinate-range statistics of the source are not
carried.) -/
structure FilterResult where
  ply_vertices : ℕ
  points_before : ℕ
  points_after : ℕ
  points_removed : ℕ
  kept_ids : List Int
  out : List String
  plyRangeX : ℚ × ℚ
  plyRangeY : ℚ × ℚ
  plyRangeZ : ℚ × ℚ
  tree_build_s : ℚ
  duration_s : ℚ
  deriving DecidableEq

/-- Streaming loop of `filter_points3d_kdtree`: comment lines are
copied; a line with fewer than four fields is skipped; otherwise the id
and coordinates are parsed and the line is kept exactly when the query
distance is within the threshold.  (The source splits with
`maxsplit=4`, which agrees with full splitting on the four leading
fields and the field count.) -/
def filterLoop (refs : List Vec3) (threshold : ℚ) :
    List String → Option (List String × ℕ × ℕ × List Int)
  | [] => some ([], 0, 0, [])
  | l :: rest =>
    if startsWithHash l then do
      let (out, tot, kept, ids) ← filterLoop refs threshold rest
      some (l :: out, tot, kept, ids)
    else if (splitWs l).length < 4 then filterLoop refs threshold rest
    else do
      let pid ← pyInt ((splitWs l).getD 0 "")
      let xv ← pyFloat ((splitWs l).getD 1 "")
      let yv ← pyFloat ((splitWs l).getD 2 "")
      let zv ← pyFloat ((splitWs l).getD 3 "")
      let (out, tot, kept, ids) ← filterLoop refs threshold rest
      if keepPoint refs threshold ⟨xv, yv, zv⟩ then
        some (l :: out, tot + 1, kept + 1, pid :: ids)
      else some (out, tot + 1, kept, ids)

/-- Shallow embedding of `filter_points3d_kdtree`: the PLY vertices are
transformed, the reference ranges are reduced with `min`/`max` — which,
as in numpy, is an error on a zero-size reference set, raised before the
output file is opened — and the points file is streamed through the keep
decision.  `t0`, `t1`, `t2` model the three `time.time()` readings. -/
def filterPoints3dKdtree (vertices : List Vec3) (transform : List ℚ)
    (threshold : ℚ) (t0 t1 t2 : ℚ) (lines : List String) :
    Except String FilterResult :=
  let coords := vertices.map (applyTransform transform)
  if coords.isEmpty then
    Except.error "zero-size array to reduction operation minimum which has no identity"
  else
    match filterLoop coords threshold lines with
    | none => Except.error "invalid numeric literal in points3D line"
    | some (out, tot, kept, ids) =>
      Except.ok ⟨vertices.length, tot, kept, tot - kept, ids, out,
        (minQ (coords.map (·.x)), maxQ (coords.map (·.x))),
        (minQ (coords.map (·.y)), maxQ (coords.map (·.y))),
        (minQ (coords.map (·.z)), maxQ (coords.map (·.z))),
        t1 - t0, t2 - t0⟩

/-- C7: for every configuration and input, running the spatial point
filter with an empty reference point set is an error — raised at the
empty reduction over the reference coordinates, before any output
exists — and never an ok result, in particular never a keep-all or
keep-none output. -/
theorem filter_empty_reference_is_error :
    ∀ (transform : List ℚ) (threshold t0 t1 t2 : ℚ) (lines : List String),
    filterPoints3dKdtree [] transform threshold t0 t1 t2 lines =
      Except.error
        "zero-size array to reduction operation minimum which has no identity" ∧
    ∀ res : FilterResult,
      filterPoints3dKdtree [] transform threshold t0 t1 t2 lines ≠ Except.ok res := by
  intro transform threshold t0 t1 t2 lines
  refine ⟨rfl, ?_⟩
  intro res hcon
  rw [show filterPoints3dKdtree [] transform threshold t0 t1 t2 lines =
    Except.error
      "zero-size array to reduction operation minimum which has no identity"
    from rfl] at hcon
  exact Except.noConfusion hcon

/-- C7 witness: the empty-reference error evaluated at a concrete
configuration and input. -/
theorem filter_empty_reference_is_error_witness :
    filterPoints3dKdtree [] [1, 0, 0, 0, 0, -1, 0, 1, 0] (1 / 1000) 0 1 2
        ["1 0.5 0.5 0.5 255 0 0 1.0"] =
      Except.error
        "zero-size array to reduction operation minimum which has no identity" ∧
    ∀ res : FilterResult,
      filterPoints3dKdtree [] [1, 0, 0, 0, 0, -1, 0, 1, 0] (1 / 1000) 0 1 2
          ["1 0.5 0.5 0.5 255 0 0 1.0"] ≠ Except.ok res :=
  filter_empty_reference_is_error [1, 0, 0, 0, 0, -1, 0, 1, 0] (1 / 1000) 0 1 2
    ["1 0.5 0.5 0.5 255 0 0 1.0"]

end Splatpipe
